import Mathlib

/-!
# Verification of the retail-brands grid scraper (`server.js`, variants)

Shallow embedding of the orchestration core of the repository:

* `generateGrid` — the nested `while` loops of `generateGrid` (identical in all
  three server variants), embedded with explicit fuel so that the divergent
  parameter ranges of the JavaScript loops stay observable.  JavaScript numbers
  are modelled as exact rationals (`ℚ`); the one transcendental the source
  evaluates, `Math.cos(centerLat * Math.PI / 180)`, is passed in as the
  rational parameter `cosCenter`, so every claim about the grid is stated
  relative to that evaluated cosine.
* `fetchPlaces` — the retrying/paginating fetch loop of `server.js`, driven by
  a script of provider outcomes (one script entry per HTTP attempt).
* `deduplicatePlaces` — the seen-set filter of the simple SSE variant.
* `runScrapingInBackground` — the background orchestrator of `server.js`
  (per-brand dedup scope, Supabase writes modelled as an ordered list of
  `DbUpdate`s).
* `scrapeStream` — the SSE orchestrator of `server.js` (global dedup scope,
  progress messages modelled as an ordered list of `Msg`s).

Cost arithmetic (`totalApiCalls * (17 / 1000)` compared against `20000`) is
modelled in `ℚ`; IEEE doubles agree with the exact rationals at every value the
claims mention (1000 · 0.017 = 17.0 exactly in doubles, and the smallest call
count whose double cost exceeds 20000 is 1176471, the same as in `ℚ`).
-/

namespace RetailScraper

/-! ## Data model -/

/-- `geometry.location` of a provider place: coordinates in degrees. -/
structure RawLocation where
  lat : ℚ
  lng : ℚ
deriving DecidableEq, Repr

/-- `geometry` of a provider place; `location` may be absent (`?.` chain). -/
structure Geometry where
  location : Option RawLocation
deriving DecidableEq, Repr

/-- A provider-returned place record (the fields the core reads).
`Option` marks fields that may be `undefined` in the JSON. -/
structure RawPlace where
  place_id : Option String
  name : Option String
  vicinity : Option String
  types : Option (List String)
  geometry : Option Geometry
  business_status : Option String
deriving DecidableEq, Repr

/-- One entry of the caller-supplied brand list. -/
structure Brand where
  brand : String
  sku : String
  category : String
deriving DecidableEq, Repr

/-- `cityBounds` of a job request. -/
structure Bounds where
  min_lat : ℚ
  max_lat : ℚ
  min_lng : ℚ
  max_lng : ℚ
deriving DecidableEq, Repr

/-- One sampled grid coordinate. -/
structure GridPoint where
  lat : ℚ
  lng : ℚ
deriving DecidableEq, Repr

/-! ## GridGenerator

```js
function generateGrid(bounds, spacingKm, centerLat) {
    const latDegPerKm = 1 / 110.574;
    const lngDegPerKm = 1 / (111.320 * Math.cos(centerLat * Math.PI / 180));
    const latStep = spacingKm * latDegPerKm;
    const lngStep = spacingKm * lngDegPerKm;
    const grid = [];
    let lat = bounds.min_lat;
    while (lat <= bounds.max_lat) {
        let lng = bounds.min_lng;
        while (lng <= bounds.max_lng) {
            grid.push({ lat, lng });
            lng += lngStep;
        }
        lat += latStep;
    }
    return grid;
}
```

The inner loop neither reads nor writes the outer loop's variable, so the grid
is the row-major concatenation of identical longitude rows; both loops are
instances of one axis loop `x := start; while x ≤ stop: emit x; x += step`.
`axisPointsFuel f` unfolds that loop for at most `f` iterations, so the points
the JavaScript loop ever pushes are exactly the members of `axisPointsFuel f`
for `f` large enough (for a step that makes the loop diverge, every finite
prefix of the emitted points is reached at some fuel). -/

/-- `latDegPerKm = 1 / 110.574` (the double `110.574` is exactly this decimal). -/
def latDegPerKm : ℚ := 1 / (110574 / 1000)

/-- `lngDegPerKm = 1 / (111.320 * cos(centerLat in radians))`, with the
evaluated cosine passed in as a rational. -/
def lngDegPerKm (cosCenter : ℚ) : ℚ := 1 / ((111320 / 1000) * cosCenter)

/-- One axis loop of `generateGrid`, unfolded `fuel` times:
`x := start; while x ≤ stop: emit x; x += step`. -/
def axisPointsFuel (step stop : ℚ) : Nat → ℚ → List ℚ
  | 0, _ => []
  | fuel + 1, cur => if cur ≤ stop then cur :: axisPointsFuel step stop fuel (cur + step) else []

/-- The grid pushed by `generateGrid` when each `while` loop is unfolded at
most `fuel` times: row-major over latitudes, then longitudes. -/
def generateGridFuel (fuel : Nat) (bounds : Bounds) (spacingKm cosCenter : ℚ) : List GridPoint :=
  (axisPointsFuel (spacingKm * latDegPerKm) bounds.max_lat fuel bounds.min_lat).flatMap fun lat =>
    (axisPointsFuel (spacingKm * lngDegPerKm cosCenter) bounds.max_lng fuel bounds.min_lng).map
      fun lng => { lat := lat, lng := lng }

/-- Enough fuel for the axis loop to run to completion when `0 < step`:
one more than the number of steps from `start` to past `stop`. -/
def axisFuel (step stop start : ℚ) : Nat := (⌈(stop - start) / step⌉).toNat + 1

/-- Enough fuel for both loops of `generateGrid` when both steps are positive. -/
def gridFuel (bounds : Bounds) (spacingKm cosCenter : ℚ) : Nat :=
  max (axisFuel (spacingKm * latDegPerKm) bounds.max_lat bounds.min_lat)
    (axisFuel (spacingKm * lngDegPerKm cosCenter) bounds.max_lng bounds.min_lng)

/-- `generateGrid` at stabilising fuel: for parameters where the JavaScript
loops terminate this is the returned grid (`generateGridFuel_stable`). -/
def generateGrid (bounds : Bounds) (spacingKm cosCenter : ℚ) : List GridPoint :=
  generateGridFuel (gridFuel bounds spacingKm cosCenter) bounds spacingKm cosCenter

/-! ## PlacesFetcher

```js
async function fetchPlaces(lat, lng, keyword, radius, apiKey, retries = 3) {
    const places = []; let nextPageToken = null; let apiCalls = 0;
    do {
        let attempt = 0; let success = false;
        while (attempt < retries && !success) {
            try {
                ... const response = await axios.get(..., { params, timeout: 10000 });
                apiCalls++;
                if (response.data.status === 'OK' || response.data.status === 'ZERO_RESULTS') {
                    places.push(...(response.data.results || []));
                    nextPageToken = response.data.next_page_token || null;
                    if (nextPageToken) { await sleep(2000); }
                    success = true;
                } else if (response.data.status === 'OVER_QUERY_LIMIT') {
                    const backoffDelay = Math.pow(2, attempt + 1) * 1000;
                    await sleep(backoffDelay);
                    attempt++;
                    if (attempt >= retries) { throw new Error('API quota exceeded'); }
                } else { success = true; nextPageToken = null; }
            } catch (error) {
                attempt++;
                if (attempt >= retries) { return { places, apiCalls }; }
                await sleep(Math.pow(2, attempt) * 1000);
            }
        }
    } while (nextPageToken);
    return { places, apiCalls };
}
```

The provider is abstracted by a *script*: one `HttpAttempt` per HTTP attempt
the loop issues, consumed in order.  Each loop iteration issues exactly one
attempt, so the recursion is structural on the script; a run of the JavaScript
function corresponds to a script at least as long as the number of attempts it
makes (the result records how many were consumed).  Note the
`throw new Error('API quota exceeded')` is lexically inside the same `try`,
so it is caught by the `catch` below it, which increments `attempt` once more
and — `attempt >= retries` being then true — returns `{ places, apiCalls }`
normally: no path of this function propagates an exception.  The second
`fetchPlaces` variant (lines 534-608) differs only in logging and in naming the
`INVALID_REQUEST` case explicitly, with the same behaviour as the final `else`.
-/

/-- Provider status of a places-search response. -/
inductive PStatus where
  | ok
  | zeroResults
  | overQueryLimit
  | invalidRequest
  | otherStatus
deriving DecidableEq, Repr

/-- One provider response page. -/
structure PageResponse where
  status : PStatus
  results : List RawPlace
  next_page_token : Option String
deriving DecidableEq, Repr

/-- One HTTP attempt as observed by `fetchPlaces`: either the transport layer
fails (timeout / connection error — the `axios.get` promise rejects before any
response arrives), or a response with a provider status. -/
inductive HttpAttempt where
  | transportFailure
  | response (r : PageResponse)
deriving DecidableEq, Repr

/-- Return value of `fetchPlaces`, instrumented with the awaited delays (ms,
in order) and the number of HTTP attempts issued. -/
structure FetchResult where
  places : List RawPlace
  apiCalls : Nat
  delays : List Nat
  attempts : Nat
deriving DecidableEq, Repr

/-- The retry/pagination loop of `fetchPlaces`; `attempt` and `token` are the
loop variables, `acc` accumulates `places`, `apiCalls` and instrumentation. -/
def fetchGo (retries : Nat) : List HttpAttempt → Nat → Option String → FetchResult → FetchResult
  | [], _, _, acc => acc
  | a :: rest, attempt, token, acc =>
    if attempt < retries then
      let acc := { acc with attempts := acc.attempts + 1 }
      match a with
        | .transportFailure =>
          if retries ≤ attempt + 1 then acc
          else fetchGo retries rest (attempt + 1) token
            { acc with delays := acc.delays ++ [2 ^ (attempt + 1) * 1000] }
        | .response r =>
          let acc := { acc with apiCalls := acc.apiCalls + 1 }
          match r.status with
          | .ok | .zeroResults =>
            let acc := { acc with places := acc.places ++ r.results }
            match r.next_page_token with
            | some tok => fetchGo retries rest 0 (some tok)
                { acc with delays := acc.delays ++ [2000] }
            | none => acc
          | .overQueryLimit =>
            let acc := { acc with delays := acc.delays ++ [2 ^ (attempt + 1) * 1000] }
            if retries ≤ attempt + 1 then acc
            else fetchGo retries rest (attempt + 1) token acc
          | _ => acc
    else acc

/-- `fetchPlaces(lat, lng, keyword, radius, apiKey, retries)` run against a
provider script (the coordinates/keyword only select which provider responses
arrive, which the script already fixes). -/
def fetchPlaces (script : List HttpAttempt) (retries : Nat) : FetchResult :=
  fetchGo retries script 0 none { places := [], apiCalls := 0, delays := [], attempts := 0 }

/-! ## CostTracker

Inlined in both orchestrators as
`const currentCost = totalApiCalls * (17 / 1000); if (currentCost > 20000) { throw ... }`. -/

/-- `totalApiCalls * (17 / 1000)`. -/
def currentCost (totalApiCalls : Nat) : ℚ := totalApiCalls * (17 / 1000)

/-- The guard `currentCost > 20000`. -/
def exceedsCostLimit (cost : ℚ) : Bool := 20000 < cost

/-! ## Deduplicator

```js
function deduplicatePlaces(places) {
    const seen = new Set();
    return places.filter(place => {
        const placeId = place.place_id;
        if (placeId && !seen.has(placeId)) { seen.add(placeId); return true; }
        return false;
    });
}
```
`placeId` is truthy exactly when the field is present and a non-empty string. -/

/-- JavaScript truthiness of `place.place_id`. -/
def truthyId : Option String → Bool
  | some id => !(id == "")
  | none => false

/-- The stateful `filter` of `deduplicatePlaces`, with the `seen` set explicit. -/
def dedupGo : List String → List RawPlace → List RawPlace
  | _, [] => []
  | seen, p :: ps =>
    match p.place_id with
    | some id =>
      if id ≠ "" ∧ id ∉ seen then p :: dedupGo (id :: seen) ps
      else dedupGo seen ps
    | none => dedupGo seen ps

/-- `deduplicatePlaces` (the simple streaming variant, lines 97-107). -/
def deduplicatePlaces (places : List RawPlace) : List RawPlace := dedupGo [] places

/-- The deduplication contract in the spec's words, for comparison with
`deduplicatePlaces`: a place is accepted exactly at the first occurrence of
its present, non-empty id, and every later occurrence of that id is dropped. -/
def specFirstSeen : List RawPlace → List RawPlace
  | [] => []
  | p :: ps =>
    match p.place_id with
    | some id =>
      if id ≠ "" then p :: specFirstSeen (ps.filter fun q => q.place_id ≠ some id)
      else specFirstSeen ps
    | none => specFirstSeen ps
termination_by l => l.length
decreasing_by
  all_goals simp only [List.length_cons]
  all_goals first
    | exact Nat.lt_succ_of_le (List.length_filter_le _ _)
    | exact Nat.lt_succ_self _

/-! ## ResultRecord construction

`latitude: place.geometry?.location?.lat || null` (background variant and the
SSE variant of server.js) and `latitude: ... || ''` (simple streaming variant,
part_000).  In JavaScript `0 || fallback` evaluates to the fallback: a
coordinate that is exactly 0 is replaced by `null` / `''`. -/

/-- A JSON field that is either a number or `null`. -/
inductive JsonNum where
  | null
  | num (v : ℚ)
deriving DecidableEq, Repr

/-- A JSON field that is either a number or the empty string. -/
inductive JsonNumOrEmpty where
  | emptyStr
  | num (v : ℚ)
deriving DecidableEq, Repr

/-- `place.geometry?.location?.lat` (`none` when any link of the chain is absent). -/
def chainLat (p : RawPlace) : Option ℚ := (p.geometry.bind Geometry.location).map RawLocation.lat

/-- `place.geometry?.location?.lng`. -/
def chainLng (p : RawPlace) : Option ℚ := (p.geometry.bind Geometry.location).map RawLocation.lng

/-- `expr || null` for an optional JS number: `undefined` and `0` are falsy. -/
def jsOrNull : Option ℚ → JsonNum
  | some v => if v = 0 then .null else .num v
  | none => .null

/-- `expr || ''` for an optional JS number. -/
def jsOrEmpty : Option ℚ → JsonNumOrEmpty
  | some v => if v = 0 then .emptyStr else .num v
  | none => .emptyStr

/-- JS `haystack.includes(needle)`. -/
def jsIncludes (haystack needle : String) : Bool := decide (needle.data <:+: haystack.data)

/-- `place.types ? place.types[0] : ''` — an array is always truthy, so an
empty `types` array yields `types[0] = undefined` (modelled `none`); an absent
`types` yields `''`. -/
def gmapsCategoryOf (types : Option (List String)) : Option String :=
  match types with
  | some ts => ts.head?
  | none => some ""

/-- A persisted result row (background and server.js SSE variants, which share
the same field list). -/
structure ResultRow where
  session_id : String
  search_brand : String
  search_sku : String
  search_category : String
  gmaps_category : Option String
  name : String
  address : String
  latitude : JsonNum
  longitude : JsonNum
  business_status : String
  gmaps_url : String
  place_id : String
  is_brand_match : Bool
deriving DecidableEq, Repr

/-- The `brandResults.push({...})` record of `runScrapingInBackground`
(lines 222-236); `placeId` is the already-checked truthy id. -/
def mkRowBg (sessionId : String) (b : Brand) (p : RawPlace) (placeId : String) : ResultRow :=
  { session_id := sessionId
    search_brand := b.brand
    search_sku := b.sku
    search_category := b.category
    gmaps_category := gmapsCategoryOf p.types
    name := p.name.getD ""
    address := p.vicinity.getD ""
    latitude := jsOrNull (chainLat p)
    longitude := jsOrNull (chainLng p)
    business_status := p.business_status.getD ""
    gmaps_url := "https://www.google.com/maps/place/?q=place_id=" ++ placeId
    place_id := placeId
    is_brand_match := jsIncludes (p.name.getD "").toLower b.brand.toLower }

/-- The streamed result record of the simple streaming variant (part_000,
lines 240-253): no `session_id`, and coordinate fallback `''`. -/
structure StreamRow where
  search_brand : String
  search_sku : String
  search_category : String
  gmaps_category : Option String
  name : String
  address : String
  latitude : JsonNumOrEmpty
  longitude : JsonNumOrEmpty
  business_status : String
  gmaps_url : String
  place_id : String
  is_brand_match : Bool
deriving DecidableEq, Repr

/-- The record built by part_000 lines 240-253. -/
def mkRowStream (b : Brand) (p : RawPlace) (placeId : String) : StreamRow :=
  { search_brand := b.brand
    search_sku := b.sku
    search_category := b.category
    gmaps_category := gmapsCategoryOf p.types
    name := p.name.getD ""
    address := p.vicinity.getD ""
    latitude := jsOrEmpty (chainLat p)
    longitude := jsOrEmpty (chainLng p)
    business_status := p.business_status.getD ""
    gmaps_url := "https://www.google.com/maps/place/?q=place_id=" ++ placeId
    place_id := placeId
    is_brand_match := jsIncludes (p.name.getD "").toLower b.brand.toLower }

/-! ## Background orchestrator (`runScrapingInBackground`, server.js 161-328)

The double loop over brands × grid points.  `fetchPlaces` never propagates an
exception (see above), so inside the per-point `try` the only possible throw
is `throw new Error('Cost limit exceeded')`; the `catch` matches it
(`error.message.includes('Cost limit')`), persists
`status: 'failed', error_message: 'Cost limit exceeded'` and returns.
Supabase writes are modelled as an ordered list of `DbUpdate`s; the provider
is abstracted by `oracle b g`, the `{ places, apiCalls }` that
`fetchPlaces(grid[g].lat, grid[g].lng, brands[b].brand, 5000, apiKey)`
returns for brand index `b` and grid index `g`.  The code computes
`grid = generateGrid(cityBounds, 10, cityCenter[0])`; the model takes the
grid as a parameter.  Dedup scope is per brand (`brandSeenPlaceIds`). -/

/-- The `{ places, apiCalls }` returned by one `fetchPlaces` call. -/
structure FetchOut where
  places : List RawPlace
  apiCalls : Nat
deriving Repr

/-- One Supabase write of `runScrapingInBackground`, in program order. -/
inductive DbUpdate where
  /-- `status: 'in_progress', total_operations` (lines 174-181). -/
  | inProgress (totalOperations : Nat)
  /-- the every-10-operations progress update (lines 258-269). -/
  | progress (completedOperations : Nat) (totalCost : ℚ) (currentBrand : String)
      (currentBrandIndex : Nat)
  /-- `scraping_results.insert(brandResults)` (lines 273-282). -/
  | insertResults (rows : List ResultRow)
  /-- the after-brand session update (lines 284-294). -/
  | brandDone (completedOperations : Nat) (totalCost : ℚ) (currentBrand : String)
      (currentBrandIndex : Nat)
  /-- `status: 'failed', error_message: 'Cost limit exceeded'` (lines 244-251). -/
  | failedCostLimit
  /-- `status: 'complete', total_results, completed_operations: totalOperations`
  (lines 303-313 and, in the SSE variant, 847-856). -/
  | complete (totalResults : Nat) (completedOperations : Nat) (totalCost : ℚ)
  /-- The SSE variant's session creation (lines 691-700):
  `status: 'in_progress', total_operations, completed_operations: 0,
  total_cost: 0, total_results: 0`. -/
  | sseSessionCreated (totalOperations : Nat)
  /-- The SSE variant's after-brand session update (lines 829-835):
  `completed_operations: currentOperation, total_cost` — no status change. -/
  | sseBrandUpdate (completedOperations : Nat) (totalCost : ℚ)
  /-- The SSE variant's outer-catch update (lines 873-878):
  `status: 'failed'` with no error message. -/
  | failedPlain
deriving DecidableEq, Repr

/-- Orchestrator state: the two counters of the code plus instrumentation
(`fetchCalls` counts issued `fetchPlaces` calls) and the persisted writes. -/
structure BgState where
  currentOperation : Nat
  totalApiCalls : Nat
  fetchCalls : Nat
  updates : List DbUpdate
deriving Repr

/-- Lines 213-237: walk the fetched places, skipping falsy or already-seen ids
and pushing a `ResultRow` for each accepted place (`seen` is the scope's
seen-set, `acc` the accumulated `brandResults`). -/
def collectPlaces (sessionId : String) (b : Brand) :
    List RawPlace → List String → List ResultRow → List String × List ResultRow
  | [], seen, acc => (seen, acc)
  | p :: ps, seen, acc =>
    match p.place_id with
    | some id =>
      if id ≠ "" ∧ id ∉ seen then
        collectPlaces sessionId b ps (id :: seen) (acc ++ [mkRowBg sessionId b p id])
      else collectPlaces sessionId b ps seen acc
    | none => collectPlaces sessionId b ps seen acc

/-- The grid-point loop for one brand (lines 192-270).  Returns the state, the
accumulated `brandResults`, and whether the cost-limit abort fired. -/
def bgGridLoop (oracle : Nat → Nat → FetchOut) (sessionId : String) (b : Brand) (bIdx : Nat) :
    List GridPoint → Nat → List String → List ResultRow → BgState →
      BgState × List ResultRow × Bool
  | [], _, _, acc, st => (st, acc, false)
  | _ :: rest, gIdx, seen, acc, st =>
    let st := { st with currentOperation := st.currentOperation + 1,
                        fetchCalls := st.fetchCalls + 1 }
    let out := oracle bIdx gIdx
    let st := { st with totalApiCalls := st.totalApiCalls + out.apiCalls }
    let cost := currentCost st.totalApiCalls
    if exceedsCostLimit cost then
      ({ st with updates := st.updates ++ [.failedCostLimit] }, acc, true)
    else
      let sa := collectPlaces sessionId b out.places seen acc
      let st := if st.currentOperation % 10 == 0 then
          { st with updates :=
              st.updates ++ [.progress st.currentOperation cost b.brand (bIdx + 1)] }
        else st
      bgGridLoop oracle sessionId b bIdx rest (gIdx + 1) sa.1 sa.2 st

/-- The brand loop (lines 184-295): run the grid loop with a fresh per-brand
seen-set, then insert the brand's rows (if any) and write the after-brand
session update; stop immediately if the grid loop aborted. -/
def bgBrandLoop (oracle : Nat → Nat → FetchOut) (sessionId : String) (grid : List GridPoint) :
    List Brand → Nat → BgState → BgState × Bool
  | [], _, st => (st, false)
  | b :: bs, bIdx, st =>
    let r := bgGridLoop oracle sessionId b bIdx grid 0 [] [] st
    if r.2.2 then (r.1, true)
    else
      let st := r.1
      let st := if r.2.1.isEmpty then st
        else { st with updates := st.updates ++ [.insertResults r.2.1] }
      let st := { st with updates := st.updates ++
          [.brandDone st.currentOperation (currentCost st.totalApiCalls) b.brand (bIdx + 1)] }
      bgBrandLoop oracle sessionId grid bs (bIdx + 1) st

/-- The `scraping_results` count the final `select` sees: all rows inserted
for this session. -/
def insertedCount : List DbUpdate → Nat
  | [] => 0
  | .insertResults rows :: us => rows.length + insertedCount us
  | _ :: us => insertedCount us

/-- `runScrapingInBackground(sessionId, brands, cityBounds, cityCenter, apiKey)`
with the computed grid and the provider oracle made explicit. -/
def runScrapingInBackground (sessionId : String) (brands : List Brand)
    (grid : List GridPoint) (oracle : Nat → Nat → FetchOut) : BgState :=
  let totalOperations := brands.length * grid.length
  let st0 : BgState := { currentOperation := 0, totalApiCalls := 0, fetchCalls := 0,
                         updates := [.inProgress totalOperations] }
  let r := bgBrandLoop oracle sessionId grid brands 0 st0
  if r.2 then r.1
  else { r.1 with updates := r.1.updates ++
      [.complete (insertedCount r.1.updates) totalOperations (currentCost r.1.totalApiCalls)] }

/-! ## SSE orchestrator (`app.post('/api/scrape')`, server.js 649-887)

The streaming variant: progress is pushed over server-sent events with
`sendProgress`, modelled as an ordered message list.  The flow is: create the
session row (on error: `throw new Error('Failed to create scraping session')`,
caught by the outer catch, which emits a single `error` message and ends the
stream); emit `start`; per brand emit a header `progress`, then per grid point
a `progress` with `gridPoint`, the fetch, a `cost-update`, and on
`currentCost > 20000` an `error` message followed by `res.end()`; after all
brands exactly one `complete`.  Dedup scope here is the whole job
(`seenPlaceIds` is declared outside the brand loop); rows are batched to
storage per brand and never streamed.  SSE heartbeat comments are not
progress messages and are not modelled. -/

/-- `Math.round(x)` for the percentage computation (JS rounds half up).  The
code divides by `totalOperations` with no zero guard; for an empty job JS
produces `NaN` where this model produces `0` — none of the claims concerns
that field's value. -/
def jsRound (x : ℚ) : Int := ⌊x + 1 / 2⌋

/-- `Math.round((currentOperation / totalOperations) * 100)`. -/
def pct (current total : Nat) : Int := jsRound ((current : ℚ) / (total : ℚ) * 100)

/-- One live progress message (`sendProgress` payload). -/
inductive Msg where
  | start (total : Nat)
  | progress (current total : Nat) (percentage : Int) (currentBrand : String)
      (brandIndex totalBrands : Nat) (gridPoint : Option (Nat × Nat))
  | costUpdate (cost : ℚ) (apiCalls : Nat)
  | result (r : StreamRow)
  | complete (totalFound : Nat) (totalCost : ℚ)
  | error (message : String)
deriving DecidableEq, Repr

/-- SSE orchestrator state: the code's counters and stream, plus the issued
Supabase writes in order and (instrumentation, as in `BgState`) the number of
`fetchPlaces` calls issued. -/
structure SseState where
  currentOperation : Nat
  totalApiCalls : Nat
  seen : List String
  insertedRows : Nat
  msgs : List Msg
  fetchCalls : Nat
  updates : List DbUpdate
deriving Repr

/-- The grid-point loop of the SSE orchestrator (lines 733-812).  It issues no
session writes; on `currentCost > 20000` the catch at lines 799-808 sends the
`error` message, clears the heartbeat and ends the stream — with **no**
Supabase write. -/
def sseGridLoop (oracle : Nat → Nat → FetchOut) (sessionId : String) (b : Brand)
    (bIdx totalBrands totalOperations gridLen : Nat) :
    List GridPoint → Nat → List ResultRow → SseState → SseState × List ResultRow × Bool
  | [], _, acc, st => (st, acc, false)
  | _ :: rest, gIdx, acc, st =>
    let st := { st with currentOperation := st.currentOperation + 1 }
    let st := { st with msgs := st.msgs ++
        [Msg.progress st.currentOperation totalOperations (pct st.currentOperation totalOperations)
          b.brand (bIdx + 1) totalBrands (some (gIdx + 1, gridLen))] }
    let out := oracle bIdx gIdx
    let st := { st with totalApiCalls := st.totalApiCalls + out.apiCalls,
                        fetchCalls := st.fetchCalls + 1 }
    let cost := currentCost st.totalApiCalls
    let st := { st with msgs := st.msgs ++ [Msg.costUpdate cost st.totalApiCalls] }
    if exceedsCostLimit cost then
      ({ st with msgs := st.msgs ++ [Msg.error "Cost limit of ₹20,000 exceeded"] }, acc, true)
    else
      let sa := collectPlaces sessionId b out.places st.seen acc
      sseGridLoop oracle sessionId b bIdx totalBrands totalOperations gridLen rest (gIdx + 1)
        sa.2 { st with seen := sa.1 }

/-- The brand loop of the SSE orchestrator (lines 713-836): header `progress`
message, grid loop, then batch-insert the brand's rows (lines 815-825, only
when non-empty) and write the after-brand session update (lines 829-835);
neither storage step emits a message. -/
def sseBrandLoop (oracle : Nat → Nat → FetchOut) (sessionId : String) (grid : List GridPoint)
    (totalBrands totalOperations : Nat) : List Brand → Nat → SseState → SseState × Bool
  | [], _, st => (st, false)
  | b :: bs, bIdx, st =>
    let st := { st with msgs := st.msgs ++
        [.progress st.currentOperation totalOperations (pct st.currentOperation totalOperations)
          b.brand (bIdx + 1) totalBrands none] }
    let r := sseGridLoop oracle sessionId b bIdx totalBrands totalOperations grid.length grid 0 [] st
    if r.2.2 then (r.1, true)
    else
      let st := { r.1 with insertedRows := r.1.insertedRows + r.2.1.length }
      let st := if r.2.1.isEmpty then st
        else { st with updates := st.updates ++ [DbUpdate.insertResults r.2.1] }
      let st := { st with updates := st.updates ++
          [DbUpdate.sseBrandUpdate st.currentOperation (currentCost st.totalApiCalls)] }
      sseBrandLoop oracle sessionId grid totalBrands totalOperations bs (bIdx + 1) st

/-- One full run of the SSE `/api/scrape` handler (lines 649-887): the final
state, with the message stream in `msgs` and the session/result writes in
`updates`.  `sessionOk` is whether the initial `scraping_sessions.insert`
(lines 691-700, creating the row directly with `status: 'in_progress'`)
succeeded; on failure the code throws before `sendProgress({type:'start'})`
and the outer catch writes a plain `status: 'failed'` and emits one `error`
message.  After all brands the session is marked complete (lines 847-856)
and the `complete` message sent.  On the cost-limit abort the grid loop has
already emitted the terminal `error` message and the handler returns with no
further Supabase write. -/
def scrapeRun (sessionId : String) (brands : List Brand) (grid : List GridPoint)
    (oracle : Nat → Nat → FetchOut) (sessionOk : Bool) : SseState :=
  if sessionOk then
    let totalOperations := brands.length * grid.length
    let st0 : SseState := { currentOperation := 0, totalApiCalls := 0, seen := [],
                            insertedRows := 0, msgs := [.start totalOperations],
                            fetchCalls := 0,
                            updates := [.sseSessionCreated totalOperations] }
    let r := sseBrandLoop oracle sessionId grid brands.length totalOperations brands 0 st0
    if r.2 then r.1
    else { r.1 with
      updates := r.1.updates ++
        [.complete r.1.insertedRows totalOperations (currentCost r.1.totalApiCalls)],
      msgs := r.1.msgs ++ [.complete r.1.insertedRows (currentCost r.1.totalApiCalls)] }
  else { currentOperation := 0, totalApiCalls := 0, seen := [], insertedRows := 0,
         msgs := [.error "Failed to create scraping session"], fetchCalls := 0,
         updates := [.failedPlain] }

/-- The message stream one `/api/scrape` request produces. -/
def scrapeStream (sessionId : String) (brands : List Brand) (grid : List GridPoint)
    (oracle : Nat → Nat → FetchOut) (sessionOk : Bool) : List Msg :=
  (scrapeRun sessionId brands grid oracle sessionOk).msgs

/-- Terminal messages: `complete` and `error`. -/
def Msg.isTerminal : Msg → Bool
  | .complete _ _ => true
  | .error _ => true
  | _ => false

/-! ## Classifiers and bookkeeping used by the theorems -/

/-- Did this HTTP attempt produce a provider response (of any status)? -/
def isResponse : HttpAttempt → Bool
  | .response _ => true
  | .transportFailure => false

/-- The per-operation `apiCalls` the grid loop adds, in execution order (one
entry per grid point, starting at grid index `gIdx`). -/
def gridCalls (oracle : Nat → Nat → FetchOut) (bIdx : Nat) : List GridPoint → Nat → List Nat
  | [], _ => []
  | _ :: rest, gIdx => (oracle bIdx gIdx).apiCalls :: gridCalls oracle bIdx rest (gIdx + 1)

/-- The per-operation `apiCalls` of the whole job, flattened in execution
order (brand-major, then grid order). -/
def jobCalls (oracle : Nat → Nat → FetchOut) (grid : List GridPoint) :
    List Brand → Nat → List Nat
  | [], _ => []
  | _ :: bs, bIdx => gridCalls oracle bIdx grid 0 ++ jobCalls oracle grid bs (bIdx + 1)

/-- Sum of the first `k` entries: the `totalApiCalls` counter after `k`
operations. -/
def takeSum (cs : List Nat) (k : Nat) : Nat := (cs.take k).sum

/-- The `completed_operations` column a session update writes, if any. -/
def updCompletedOps : DbUpdate → Option Nat
  | .progress c _ _ _ => some c
  | .brandDone c _ _ _ => some c
  | .complete _ c _ => some c
  | .sseSessionCreated _ => some 0
  | .sseBrandUpdate c _ => some c
  | _ => none

/-- Is this update the `status: 'complete'` write? -/
def isCompleteU : DbUpdate → Bool
  | .complete _ _ _ => true
  | _ => false

/-- Is this update a `status: 'failed'` write (with or without a reason)? -/
def isFailedU : DbUpdate → Bool
  | .failedCostLimit => true
  | .failedPlain => true
  | _ => false

/-- Is this update a `.progress` checkpoint? -/
def isProgressU : DbUpdate → Bool
  | .progress _ _ _ _ => true
  | _ => false

/-- "The id, if present, is not yet in the seen-set" — used to relate a
`dedupGo` run whose seen-set is already populated to a `specFirstSeen` run on
the not-yet-seen places. -/
def notSeen (seen : List String) (q : RawPlace) : Bool :=
  match q.place_id with
  | some i => !(decide (i ∈ seen))
  | none => true

/-! ### Axis-loop lemmas -/

theorem axisPointsFuel_mem_le {step stop : ℚ} {fuel : Nat} {start x : ℚ}
    (hx : x ∈ axisPointsFuel step stop fuel start) : x ≤ stop := by
  induction fuel generalizing start with
  | zero => simp [axisPointsFuel] at hx
  | succ n ih =>
    rw [axisPointsFuel] at hx
    by_cases h : start ≤ stop
    · rw [if_pos h] at hx
      rcases List.mem_cons.mp hx with rfl | hx
      · exact h
      · exact ih hx
    · rw [if_neg h] at hx; cases hx

theorem axisPointsFuel_mem_ge {step stop : ℚ} (hstep : 0 ≤ step) {fuel : Nat} {start x : ℚ}
    (hx : x ∈ axisPointsFuel step stop fuel start) : start ≤ x := by
  induction fuel generalizing start with
  | zero => simp [axisPointsFuel] at hx
  | succ n ih =>
    rw [axisPointsFuel] at hx
    by_cases h : start ≤ stop
    · rw [if_pos h] at hx
      rcases List.mem_cons.mp hx with rfl | hx
      · exact le_refl x
      · calc start ≤ start + step := by linarith
          _ ≤ x := ih hx
    · rw [if_neg h] at hx; cases hx

theorem axisPointsFuel_stop_lt {step stop : ℚ} {fuel : Nat} {start : ℚ} (h : ¬ start ≤ stop) :
    axisPointsFuel step stop fuel start = [] := by
  cases fuel with
  | zero => rfl
  | succ n => rw [axisPointsFuel, if_neg h]

/-- With positive step, one extra unit of fuel beyond `axisFuel` changes nothing. -/
theorem axisPointsFuel_succ_stable {step stop : ℚ} (hstep : 0 < step) :
    ∀ fuel start, axisFuel step stop start ≤ fuel →
      axisPointsFuel step stop (fuel + 1) start = axisPointsFuel step stop fuel start := by
  intro fuel
  induction fuel with
  | zero =>
    intro start h
    exact absurd h (by unfold axisFuel; omega)
  | succ n ih =>
    intro start h
    by_cases hc : start ≤ stop
    · have hL : axisPointsFuel step stop (n + 1 + 1) start
          = start :: axisPointsFuel step stop (n + 1) (start + step) := by
        conv_lhs => rw [axisPointsFuel]
        rw [if_pos hc]
      have hR : axisPointsFuel step stop (n + 1) start
          = start :: axisPointsFuel step stop n (start + step) := by
        conv_lhs => rw [axisPointsFuel]
        rw [if_pos hc]
      rw [hL, hR]
      by_cases hnext : start + step ≤ stop
      · have hone : (1 : ℤ) ≤ ⌈(stop - start) / step⌉ := by
          have h1 : (1 : ℚ) ≤ (stop - start) / step := by
            rw [le_div_iff₀ hstep]; linarith
          calc (1 : ℤ) = ⌈(1 : ℚ)⌉ := by norm_num
            _ ≤ ⌈(stop - start) / step⌉ := Int.ceil_le_ceil h1
        have hrec : axisFuel step stop (start + step) ≤ n := by
          have hdiv : (stop - (start + step)) / step = (stop - start) / step - 1 := by
            field_simp
            ring
          have hceil : ⌈(stop - (start + step)) / step⌉ = ⌈(stop - start) / step⌉ - 1 := by
            rw [hdiv, Int.ceil_sub_one]
          have hle : axisFuel step stop start ≤ n + 1 := h
          unfold axisFuel at hle ⊢
          rw [hceil]
          omega
        rw [ih (start + step) hrec]
      · rw [axisPointsFuel_stop_lt hnext, axisPointsFuel_stop_lt hnext]
    · rw [axisPointsFuel_stop_lt hc, axisPointsFuel_stop_lt hc]

/-- With positive step the axis loop terminates: all fuels from `axisFuel` on
produce the same list (the list the JavaScript loop returns). -/
theorem axisPointsFuel_stable {step stop : ℚ} (hstep : 0 < step) {fuel : Nat} (start : ℚ)
    (h : axisFuel step stop start ≤ fuel) :
    axisPointsFuel step stop fuel start = axisPointsFuel step stop (axisFuel step stop start) start := by
  obtain ⟨k, rfl⟩ := Nat.exists_eq_add_of_le h
  induction k with
  | zero => rfl
  | succ m ih =>
    have : axisFuel step stop start + (m + 1) = (axisFuel step stop start + m) + 1 := by omega
    rw [this, axisPointsFuel_succ_stable hstep _ start (by omega), ih (by omega)]

/-! ## Claim C4 — cost accounting -/

/-- **C4.** Cost accounting is exact and monotone: the accumulated cost is
`totalApiCalls × 0.017`, so after 1000 calls the cost is exactly 17.0 and a
ceiling of 20000 is not exceeded, while after 1176471 calls the ceiling is
exceeded; the exceeds-ceiling test flips from false to true exactly when the
accumulated cost crosses the ceiling (at call count 1176471) and never
before.  (IEEE doubles agree with these exact rationals at every value named
here, including the flip index.) -/
theorem costTracking_exact_monotone :
    currentCost 1000 = 17 ∧
    exceedsCostLimit (currentCost 1000) = false ∧
    exceedsCostLimit (currentCost 1176471) = true ∧
    (∀ m n : Nat, m ≤ n → currentCost m ≤ currentCost n) ∧
    (∀ n : Nat, exceedsCostLimit (currentCost n) = true ↔ 1176471 ≤ n) := by
  refine ⟨by norm_num [currentCost], by norm_num [exceedsCostLimit, currentCost],
    by norm_num [exceedsCostLimit, currentCost], ?_, ?_⟩
  · intro m n h
    unfold currentCost
    have hmn : (m : ℚ) ≤ n := by exact_mod_cast h
    nlinarith
  · intro n
    unfold exceedsCostLimit currentCost
    rw [decide_eq_true_eq]
    constructor
    · intro h
      have hn : (20000000 : ℚ) < 17 * n := by linarith
      have : (20000000 : ℕ) < 17 * n := by exact_mod_cast hn
      omega
    · intro h
      have hn : (20000000 : ℕ) < 17 * n := by omega
      have : (20000000 : ℚ) < 17 * n := by exact_mod_cast hn
      linarith

/-- Witness for `costTracking_exact_monotone` at concrete inputs. -/
theorem costTracking_exact_monotone_witness :
    currentCost 1000 = 17 ∧ currentCost 500 ≤ currentCost 1000 ∧
    exceedsCostLimit (currentCost 1176471) = true :=
  ⟨costTracking_exact_monotone.1,
    costTracking_exact_monotone.2.2.2.1 500 1000 (by norm_num),
    costTracking_exact_monotone.2.2.1⟩

/-! ## Claim C10 — zero coordinates stored as fallback -/

/-- **C10.** For every `RawPlace` whose `geometry.location.lat` or `.lng` is
exactly 0, the built record stores that coordinate as the fallback value
(`null` in the background-processing variant's row, `''` in the streaming
variant's row) rather than 0; a numeric coordinate is preserved exactly when
it is non-zero. -/
theorem zero_coordinate_fallback (sessionId : String) (b : Brand) (p : RawPlace) (id : String) :
    (chainLat p = some 0 → (mkRowBg sessionId b p id).latitude = JsonNum.null) ∧
    (chainLng p = some 0 → (mkRowBg sessionId b p id).longitude = JsonNum.null) ∧
    (chainLat p = some 0 → (mkRowStream b p id).latitude = JsonNumOrEmpty.emptyStr) ∧
    (chainLng p = some 0 → (mkRowStream b p id).longitude = JsonNumOrEmpty.emptyStr) ∧
    (∀ v : ℚ, v ≠ 0 → chainLat p = some v →
      (mkRowBg sessionId b p id).latitude = JsonNum.num v ∧
      (mkRowStream b p id).latitude = JsonNumOrEmpty.num v) ∧
    (∀ v : ℚ, v ≠ 0 → chainLng p = some v →
      (mkRowBg sessionId b p id).longitude = JsonNum.num v ∧
      (mkRowStream b p id).longitude = JsonNumOrEmpty.num v) := by
  refine ⟨?_, ?_, ?_, ?_, ?_, ?_⟩
  · intro h; simp [mkRowBg, jsOrNull, h]
  · intro h; simp [mkRowBg, jsOrNull, h]
  · intro h; simp [mkRowStream, jsOrEmpty, h]
  · intro h; simp [mkRowStream, jsOrEmpty, h]
  · intro v hv h; constructor
    · simp [mkRowBg, jsOrNull, h, hv]
    · simp [mkRowStream, jsOrEmpty, h, hv]
  · intro v hv h; constructor
    · simp [mkRowBg, jsOrNull, h, hv]
    · simp [mkRowStream, jsOrEmpty, h, hv]

/-- Witness for `zero_coordinate_fallback`: a place sitting exactly on the
equator (lat 0, lng 5). -/
theorem zero_coordinate_fallback_witness :
    chainLat { place_id := some "p1", name := none, vicinity := none, types := none,
               geometry := some { location := some { lat := 0, lng := 5 } },
               business_status := none } = some 0 ∧
    (mkRowBg "s" { brand := "b", sku := "k", category := "c" }
        { place_id := some "p1", name := none, vicinity := none, types := none,
          geometry := some { location := some { lat := 0, lng := 5 } },
          business_status := none } "p1").latitude = JsonNum.null :=
  ⟨rfl, (zero_coordinate_fallback "s" { brand := "b", sku := "k", category := "c" }
    { place_id := some "p1", name := none, vicinity := none, types := none,
      geometry := some { location := some { lat := 0, lng := 5 } },
      business_status := none } "p1").1 rfl⟩

/-! ## Claim C7 — inverted bounds -/

/-- **C7.** For every spacing and every evaluated centre-latitude cosine,
`generateGrid` on a bounding box with `min_lat > max_lat` or
`min_lng > max_lng` emits no point at all — at every finite unfolding of the
loops the pushed grid is `[]` (so also at the stabilising fuel), and the
embedding is a total function, so no exception is possible. -/
theorem generateGrid_inverted_bounds_empty (bounds : Bounds) (spacingKm cosCenter : ℚ)
    (h : bounds.max_lat < bounds.min_lat ∨ bounds.max_lng < bounds.min_lng) :
    (∀ fuel, generateGridFuel fuel bounds spacingKm cosCenter = []) ∧
    generateGrid bounds spacingKm cosCenter = [] := by
  have key : ∀ fuel, generateGridFuel fuel bounds spacingKm cosCenter = [] := by
    intro fuel
    unfold generateGridFuel
    rcases h with h | h
    · rw [axisPointsFuel_stop_lt (not_le.mpr h)]
      rfl
    · rw [axisPointsFuel_stop_lt (not_le.mpr h)]
      simp
  exact ⟨key, key _⟩

/-- Witness for `generateGrid_inverted_bounds_empty`: a box with
`min_lng > max_lng`. -/
theorem generateGrid_inverted_bounds_empty_witness :
    generateGrid { min_lat := 10, max_lat := 11, min_lng := 8, max_lng := 7 } 10 (9 / 10) = [] :=
  (generateGrid_inverted_bounds_empty
    { min_lat := 10, max_lat := 11, min_lng := 8, max_lng := 7 } 10 (9 / 10)
    (Or.inr (by norm_num))).2

/-! ## Claim C9 — termination of `generateGrid` -/

/-- **C9.** Whenever `spacingKm` is positive and the evaluated cosine of the
centre latitude is positive (the centre latitude strictly between -90 and 90
degrees), both loop steps `spacingKm / 110.574` and
`spacingKm / (111.320 · cos centerLat)` are strictly positive, so both
`while` loops make progress and terminate: the fuel-indexed unfolding of
`generateGrid` is stable from `gridFuel` on. -/
theorem generateGrid_terminates (bounds : Bounds) (spacingKm cosCenter : ℚ)
    (hs : 0 < spacingKm) (hc : 0 < cosCenter) :
    0 < spacingKm * latDegPerKm ∧ 0 < spacingKm * lngDegPerKm cosCenter ∧
    ∀ fuel, gridFuel bounds spacingKm cosCenter ≤ fuel →
      generateGridFuel fuel bounds spacingKm cosCenter =
        generateGrid bounds spacingKm cosCenter := by
  have hlat : 0 < spacingKm * latDegPerKm := by
    unfold latDegPerKm; positivity
  have hlng : 0 < spacingKm * lngDegPerKm cosCenter := by
    unfold lngDegPerKm; positivity
  refine ⟨hlat, hlng, ?_⟩
  have hglat : axisFuel (spacingKm * latDegPerKm) bounds.max_lat bounds.min_lat ≤
      gridFuel bounds spacingKm cosCenter := le_max_left _ _
  have hglng : axisFuel (spacingKm * lngDegPerKm cosCenter) bounds.max_lng bounds.min_lng ≤
      gridFuel bounds spacingKm cosCenter := le_max_right _ _
  intro fuel hf
  unfold generateGrid generateGridFuel
  rw [axisPointsFuel_stable hlat _ (hglat.trans hf), axisPointsFuel_stable hlat _ hglat]
  simp only [axisPointsFuel_stable hlng bounds.min_lng (hglng.trans hf),
    axisPointsFuel_stable hlng bounds.min_lng hglng]

/-- Witness for `generateGrid_terminates` on the Delhi-like box of the spec's
scenario 1 (cosine of 28.6° evaluated ≈ 0.8878). -/
theorem generateGrid_terminates_witness :
    0 < (10 : ℚ) * latDegPerKm ∧ 0 < (10 : ℚ) * lngDegPerKm (8878 / 10000) ∧
    ∀ fuel, gridFuel { min_lat := 28.4, max_lat := 28.8, min_lng := 77.0, max_lng := 77.4 }
        10 (8878 / 10000) ≤ fuel →
      generateGridFuel fuel { min_lat := 28.4, max_lat := 28.8, min_lng := 77.0, max_lng := 77.4 }
          10 (8878 / 10000) =
        generateGrid { min_lat := 28.4, max_lat := 28.8, min_lng := 77.0, max_lng := 77.4 }
          10 (8878 / 10000) :=
  generateGrid_terminates _ 10 (8878 / 10000) (by norm_num) (by norm_num)

/-! ## Claim C6 — grid points within bounds, row-major, deterministic -/

/-- **C6 counterexample.** The claim quantifies over *every* centre latitude.
At centre latitude 180° the evaluated cosine is exactly -1 (also in IEEE
doubles: `Math.cos(Math.PI) = -1`), so the longitude step is negative and the
inner `while (lng <= max_lng)` loop walks *away* from the box below
`min_lng` (and never terminates).  Already among the first three points the
loop pushes (enumerated by `generateGridFuel 3`) there is one with longitude
strictly below `min_lng = 0`, refuting the claimed bounds. -/
theorem generateGrid_out_of_bounds_cex :
    GridPoint.mk 0 (-250 / 2783) ∈
      generateGridFuel 3 { min_lat := 0, max_lat := 0, min_lng := 0, max_lng := 1 } 10 (-1) ∧
    (-250 / 2783 : ℚ) < 0 := by
  have hmem : generateGridFuel 3 { min_lat := 0, max_lat := 0, min_lng := 0, max_lng := 1 }
      10 (-1) =
      [{ lat := 0, lng := 0 }, { lat := 0, lng := -250 / 2783 },
        { lat := 0, lng := -500 / 2783 }] := by
    norm_num [generateGridFuel, axisPointsFuel, latDegPerKm, lngDegPerKm]
  rw [hmem]
  norm_num

/-- **C6 (amended).** For every bounding box with `min_lat ≤ max_lat` and
`min_lng ≤ max_lng`, every positive `spacingKm`, and every centre latitude
whose evaluated cosine is positive (centre strictly between -90° and 90°):
every point `generateGrid` emits (at any loop unfolding) has latitude in
`[min_lat, max_lat]` and longitude in `[min_lng, max_lng]`; the sequence is
the row-major concatenation over the latitude axis of the (identical)
longitude rows; and identical inputs yield an identical sequence. -/
theorem generateGrid_in_bounds (bounds : Bounds) (spacingKm cosCenter : ℚ)
    (hbla : bounds.min_lat ≤ bounds.max_lat) (hbln : bounds.min_lng ≤ bounds.max_lng)
    (hs : 0 < spacingKm) (hc : 0 < cosCenter) :
    (∀ fuel, ∀ p ∈ generateGridFuel fuel bounds spacingKm cosCenter,
      bounds.min_lat ≤ p.lat ∧ p.lat ≤ bounds.max_lat ∧
      bounds.min_lng ≤ p.lng ∧ p.lng ≤ bounds.max_lng) ∧
    generateGrid bounds spacingKm cosCenter =
      (axisPointsFuel (spacingKm * latDegPerKm) bounds.max_lat
          (axisFuel (spacingKm * latDegPerKm) bounds.max_lat bounds.min_lat)
          bounds.min_lat).flatMap (fun lat =>
        (axisPointsFuel (spacingKm * lngDegPerKm cosCenter) bounds.max_lng
            (axisFuel (spacingKm * lngDegPerKm cosCenter) bounds.max_lng bounds.min_lng)
            bounds.min_lng).map fun lng => { lat := lat, lng := lng }) ∧
    (∀ bounds2 s2 c2, bounds2 = bounds → s2 = spacingKm → c2 = cosCenter →
      generateGrid bounds2 s2 c2 = generateGrid bounds spacingKm cosCenter) := by
  have hlat : 0 < spacingKm * latDegPerKm := by unfold latDegPerKm; positivity
  have hlng : 0 < spacingKm * lngDegPerKm cosCenter := by unfold lngDegPerKm; positivity
  refine ⟨?_, ?_, ?_⟩
  · intro fuel p hp
    unfold generateGridFuel at hp
    rw [List.mem_flatMap] at hp
    obtain ⟨la, hla, hp⟩ := hp
    rw [List.mem_map] at hp
    obtain ⟨lo, hlo, rfl⟩ := hp
    exact ⟨axisPointsFuel_mem_ge hlat.le hla, axisPointsFuel_mem_le hla,
      axisPointsFuel_mem_ge hlng.le hlo, axisPointsFuel_mem_le hlo⟩
  · have hglat : axisFuel (spacingKm * latDegPerKm) bounds.max_lat bounds.min_lat ≤
        gridFuel bounds spacingKm cosCenter := le_max_left _ _
    have hglng : axisFuel (spacingKm * lngDegPerKm cosCenter) bounds.max_lng bounds.min_lng ≤
        gridFuel bounds spacingKm cosCenter := le_max_right _ _
    unfold generateGrid generateGridFuel
    rw [axisPointsFuel_stable hlat _ hglat]
    simp only [axisPointsFuel_stable hlng bounds.min_lng hglng]
  · intro bounds2 s2 c2 h1 h2 h3
    rw [h1, h2, h3]

/-- Witness for `generateGrid_in_bounds` on the Delhi-like box, checking one
emitted point. -/
theorem generateGrid_in_bounds_witness :
    (28.4 : ℚ) ≤ 28.8 ∧ (77.0 : ℚ) ≤ 77.4 ∧
    ∀ p ∈ generateGridFuel 7 { min_lat := 28.4, max_lat := 28.8, min_lng := 77.0, max_lng := 77.4 }
        10 (8878 / 10000),
      (28.4 : ℚ) ≤ p.lat ∧ p.lat ≤ 28.8 ∧ (77.0 : ℚ) ≤ p.lng ∧ p.lng ≤ 77.4 :=
  ⟨by norm_num, by norm_num,
    (generateGrid_in_bounds { min_lat := 28.4, max_lat := 28.8, min_lng := 77.0, max_lng := 77.4 }
      10 (8878 / 10000) (by norm_num) (by norm_num) (by norm_num) (by norm_num)).1 7⟩

/-! ## Claim C1 — rate-limit exhaustion -/

/-- **C1** at its own scenario (`maxRetries = 3`, provider answers
`OVER_QUERY_LIMIT` on every attempt): `fetchPlaces` does make exactly 3
attempts with exponential backoff delays 2s, 4s, 8s, as the claim states —
but then it *returns normally* with `{ places: [], apiCalls: 3 }` instead of
raising a fatal quota error.  The `throw new Error('API quota exceeded')` is
lexically inside the same `try`, so the `catch` right below absorbs it: the
catch's `attempt++` makes `attempt >= retries` true and takes the
`return { places, apiCalls }` branch.  The caller's
`error.message.includes('quota')` handler is therefore dead code. -/
theorem fetchPlaces_rate_limited_returns_normally :
    fetchPlaces
      [HttpAttempt.response ⟨PStatus.overQueryLimit, [], none⟩,
        HttpAttempt.response ⟨PStatus.overQueryLimit, [], none⟩,
        HttpAttempt.response ⟨PStatus.overQueryLimit, [], none⟩] 3 =
      { places := [], apiCalls := 3, delays := [2000, 4000, 8000], attempts := 3 } := by
  rfl

/-! ## Claim C2 — `apiCalls` accounting -/

/-- **C2 counterexample.** Three transport-level failures (timeouts /
connection errors) in a row: `fetchPlaces` issues 3 HTTP attempts but returns
`apiCalls = 0`, because `apiCalls++` sits after the `await axios.get(...)`
and a rejected promise jumps straight to the `catch` — failed transport
attempts are never counted, contradicting the claim that every failed attempt
increments the count exactly once. -/
theorem fetchPlaces_transport_not_counted_cex :
    fetchPlaces [HttpAttempt.transportFailure, HttpAttempt.transportFailure,
        HttpAttempt.transportFailure] 3 =
      { places := [], apiCalls := 0, delays := [2000, 4000], attempts := 3 } := by
  rfl

/-- Helper for `fetchPlaces_apiCalls_counts_responses`: `fetchGo` consumes a
prefix of the script and counts exactly its `response` entries. -/
theorem fetchGo_apiCalls_spec (retries : Nat) :
    ∀ (script : List HttpAttempt) (attempt : Nat) (token : Option String) (acc : FetchResult),
      ∃ n, n ≤ script.length ∧
        (fetchGo retries script attempt token acc).attempts = acc.attempts + n ∧
        (fetchGo retries script attempt token acc).apiCalls =
          acc.apiCalls + (script.take n).countP isResponse := by
  intro script
  induction script with
  | nil =>
    intro attempt token acc
    exact ⟨0, by simp [fetchGo]⟩
  | cons a rest ih =>
    intro attempt token acc
    by_cases hlt : attempt < retries
    · cases a with
      | transportFailure =>
        by_cases hret : retries ≤ attempt + 1
        · refine ⟨1, by simp, ?_, ?_⟩ <;>
            simp [fetchGo, hlt, hret, isResponse, List.countP_cons]
        · obtain ⟨n, hn, hatt, hapi⟩ := ih (attempt + 1) token
            { acc with attempts := acc.attempts + 1,
                       delays := acc.delays ++ [2 ^ (attempt + 1) * 1000] }
          refine ⟨n + 1, by simpa using Nat.succ_le_succ hn, ?_, ?_⟩
          · simp only [fetchGo, if_pos hlt, if_neg hret]
            simpa [Nat.add_assoc, Nat.add_comm, Nat.add_left_comm] using hatt
          · simp only [fetchGo, if_pos hlt, if_neg hret]
            simp only [List.take_succ_cons, List.countP_cons]
            simpa [isResponse] using hapi
      | response r =>
        cases hst : r.status with
        | ok =>
          cases htok : r.next_page_token with
          | some tok =>
            obtain ⟨n, hn, hatt, hapi⟩ := ih 0 (some tok)
              { acc with attempts := acc.attempts + 1, apiCalls := acc.apiCalls + 1,
                         places := acc.places ++ r.results, delays := acc.delays ++ [2000] }
            refine ⟨n + 1, by simpa using Nat.succ_le_succ hn, ?_, ?_⟩
            · simp only [fetchGo, if_pos hlt, hst, htok]
              rw [hatt]
              simp [Nat.add_assoc, Nat.add_comm, Nat.add_left_comm]
            · simp only [fetchGo, if_pos hlt, hst, htok]
              rw [hapi, List.take_succ_cons, List.countP_cons]
              simp [isResponse]
              omega
          | none =>
            refine ⟨1, by simp, ?_, ?_⟩ <;>
              simp [fetchGo, hlt, hst, htok, isResponse, List.countP_cons]
        | zeroResults =>
          cases htok : r.next_page_token with
          | some tok =>
            obtain ⟨n, hn, hatt, hapi⟩ := ih 0 (some tok)
              { acc with attempts := acc.attempts + 1, apiCalls := acc.apiCalls + 1,
                         places := acc.places ++ r.results, delays := acc.delays ++ [2000] }
            refine ⟨n + 1, by simpa using Nat.succ_le_succ hn, ?_, ?_⟩
            · simp only [fetchGo, if_pos hlt, hst, htok]
              rw [hatt]
              simp [Nat.add_assoc, Nat.add_comm, Nat.add_left_comm]
            · simp only [fetchGo, if_pos hlt, hst, htok]
              rw [hapi, List.take_succ_cons, List.countP_cons]
              simp [isResponse]
              omega
          | none =>
            refine ⟨1, by simp, ?_, ?_⟩ <;>
              simp [fetchGo, hlt, hst, htok, isResponse, List.countP_cons]
        | overQueryLimit =>
          by_cases hret : retries ≤ attempt + 1
          · refine ⟨1, by simp, ?_, ?_⟩ <;>
              simp [fetchGo, hlt, hst, hret, isResponse, List.countP_cons]
          · obtain ⟨n, hn, hatt, hapi⟩ := ih (attempt + 1) token
              { acc with attempts := acc.attempts + 1, apiCalls := acc.apiCalls + 1,
                         delays := acc.delays ++ [2 ^ (attempt + 1) * 1000] }
            refine ⟨n + 1, by simpa using Nat.succ_le_succ hn, ?_, ?_⟩
            · simp only [fetchGo, if_pos hlt, hst, if_neg hret]
              rw [hatt]
              simp [Nat.add_assoc, Nat.add_comm, Nat.add_left_comm]
            · simp only [fetchGo, if_pos hlt, hst, if_neg hret]
              rw [hapi, List.take_succ_cons, List.countP_cons]
              simp [isResponse]
              omega
        | invalidRequest =>
          refine ⟨1, by simp, ?_, ?_⟩ <;>
            simp [fetchGo, hlt, hst, isResponse, List.countP_cons]
        | otherStatus =>
          refine ⟨1, by simp, ?_, ?_⟩ <;>
            simp [fetchGo, hlt, hst, isResponse, List.countP_cons]
    · exact ⟨0, by simp [fetchGo, hlt]⟩

/-- **C2 (amended).** `apiCallCount` counts exactly the HTTP attempts that
received a provider response (of any status): for every provider script and
retry budget, the returned `apiCalls` equals the number of `response` entries
among the attempts actually consumed; transport-level failures (timeouts,
connection errors) are issued and retried but never increment the counter. -/
theorem fetchPlaces_apiCalls_counts_responses (script : List HttpAttempt) (retries : Nat) :
    (fetchPlaces script retries).attempts ≤ script.length ∧
    (fetchPlaces script retries).apiCalls =
      (script.take (fetchPlaces script retries).attempts).countP isResponse := by
  obtain ⟨n, hn, hatt, hapi⟩ :=
    fetchGo_apiCalls_spec retries script 0 none
      { places := [], apiCalls := 0, delays := [], attempts := 0 }
  have hn' : (fetchPlaces script retries).attempts = n := by
    simpa [fetchPlaces] using hatt
  constructor
  · rw [hn']; exact hn
  · rw [hn']
    simpa [fetchPlaces] using hapi

/-! ## Claim C5 — deduplication -/

/-- Branch equation of `dedupGo` for a missing id. -/
theorem dedupGo_cons_none (seen : List String) (p : RawPlace) (ps : List RawPlace)
    (h : p.place_id = none) : dedupGo seen (p :: ps) = dedupGo seen ps := by
  rw [dedupGo, h]

/-- Branch equation of `dedupGo` for a present id. -/
theorem dedupGo_cons_some (seen : List String) (p : RawPlace) (ps : List RawPlace) (id : String)
    (h : p.place_id = some id) :
    dedupGo seen (p :: ps) =
      if id ≠ "" ∧ id ∉ seen then p :: dedupGo (id :: seen) ps else dedupGo seen ps := by
  rw [dedupGo, h]

/-- Branch equation of `specFirstSeen` for a missing id. -/
theorem specFirstSeen_cons_none (p : RawPlace) (ps : List RawPlace) (h : p.place_id = none) :
    specFirstSeen (p :: ps) = specFirstSeen ps := by
  rw [specFirstSeen, h]

/-- Branch equation of `specFirstSeen` for a present id. -/
theorem specFirstSeen_cons_some (p : RawPlace) (ps : List RawPlace) (id : String)
    (h : p.place_id = some id) :
    specFirstSeen (p :: ps) =
      if id ≠ "" then p :: specFirstSeen (ps.filter fun q => q.place_id ≠ some id)
      else specFirstSeen ps := by
  rw [specFirstSeen, h]

/-- Branch equation of `collectPlaces` for a missing id. -/
theorem collectPlaces_cons_none (sid : String) (b : Brand) (p : RawPlace) (ps : List RawPlace)
    (seen : List String) (acc : List ResultRow) (h : p.place_id = none) :
    collectPlaces sid b (p :: ps) seen acc = collectPlaces sid b ps seen acc := by
  rw [collectPlaces, h]

/-- Branch equation of `collectPlaces` for a present id. -/
theorem collectPlaces_cons_some (sid : String) (b : Brand) (p : RawPlace) (ps : List RawPlace)
    (seen : List String) (acc : List ResultRow) (id : String) (h : p.place_id = some id) :
    collectPlaces sid b (p :: ps) seen acc =
      if id ≠ "" ∧ id ∉ seen then
        collectPlaces sid b ps (id :: seen) (acc ++ [mkRowBg sid b p id])
      else collectPlaces sid b ps seen acc := by
  rw [collectPlaces, h]

/-- `dedupGo` with an already-populated seen-set is `specFirstSeen` on the
places whose id is not yet seen. -/
theorem dedupGo_eq_specFirstSeen :
    ∀ (l : List RawPlace) (seen : List String),
      dedupGo seen l = specFirstSeen (l.filter (notSeen seen)) := by
  intro l
  induction l with
  | nil => intro seen; simp [dedupGo, specFirstSeen]
  | cons p ps ih =>
    intro seen
    rw [List.filter_cons]
    cases hid : p.place_id with
    | none =>
      have hns : notSeen seen p = true := by simp [notSeen, hid]
      rw [hns, if_pos rfl, dedupGo_cons_none seen p ps hid, specFirstSeen_cons_none p _ hid]
      exact ih seen
    | some id =>
      by_cases hin : id ∈ seen
      · have hns : notSeen seen p = false := by simp [notSeen, hid, hin]
        rw [hns]
        simp only [Bool.false_eq_true, if_false]
        rw [dedupGo_cons_some seen p ps id hid, if_neg (by tauto)]
        exact ih seen
      · have hns : notSeen seen p = true := by simp [notSeen, hid, hin]
        rw [hns, if_pos rfl]
        by_cases hemp : id = ""
        · rw [dedupGo_cons_some seen p ps id hid, if_neg (by tauto),
            specFirstSeen_cons_some p _ id hid, if_neg (by simpa using hemp)]
          exact ih seen
        · rw [dedupGo_cons_some seen p ps id hid, if_pos ⟨hemp, hin⟩,
            specFirstSeen_cons_some p _ id hid, if_pos hemp]
          congr 1
          rw [ih (id :: seen), List.filter_filter]
          refine congrArg specFirstSeen (List.filter_congr ?_)
          intro a _
          cases hq : a.place_id with
          | none => simp [notSeen, hq]
          | some s =>
            by_cases hsid : s = id
            · simp [notSeen, hq, hsid, List.mem_cons]
            · by_cases hsseen : s ∈ seen <;>
                simp [notSeen, hq, hsid, hsseen, List.mem_cons]

/-- Everything `dedupGo` keeps has a truthy (present, non-empty) id. -/
theorem dedupGo_mem_truthy :
    ∀ (l : List RawPlace) (seen : List String) (p : RawPlace),
      p ∈ dedupGo seen l → truthyId p.place_id = true := by
  intro l
  induction l with
  | nil => intro seen p hp; simp [dedupGo] at hp
  | cons q ps ih =>
    intro seen p hp
    cases hid : q.place_id with
    | none =>
      rw [dedupGo_cons_none seen q ps hid] at hp
      exact ih seen p hp
    | some id =>
      rw [dedupGo_cons_some seen q ps id hid] at hp
      by_cases hc : id ≠ "" ∧ id ∉ seen
      · rw [if_pos hc] at hp
        rcases List.mem_cons.mp hp with rfl | hp
        · simp [truthyId, hid, hc.1]
        · exact ih _ p hp
      · rw [if_neg hc] at hp
        exact ih seen p hp

/-- `collectPlaces` only appends rows whose `place_id` is non-empty. -/
theorem collectPlaces_place_id (sid : String) (b : Brand) :
    ∀ (ps : List RawPlace) (seen : List String) (acc : List ResultRow),
      (∀ r ∈ acc, r.place_id ≠ "") →
      ∀ r ∈ (collectPlaces sid b ps seen acc).2, r.place_id ≠ "" := by
  intro ps
  induction ps with
  | nil =>
    intro seen acc hacc r hr
    exact hacc r hr
  | cons p rest ih =>
    intro seen acc hacc r hr
    cases hid : p.place_id with
    | none =>
      rw [collectPlaces_cons_none sid b p rest seen acc hid] at hr
      exact ih seen acc hacc r hr
    | some id =>
      rw [collectPlaces_cons_some sid b p rest seen acc id hid] at hr
      by_cases hc : id ≠ "" ∧ id ∉ seen
      · rw [if_pos hc] at hr
        refine ih _ _ ?_ r hr
        intro r' hr'
        rcases List.mem_append.mp hr' with hr' | hr'
        · exact hacc r' hr'
        · rcases List.mem_singleton.mp hr' with rfl
          simpa [mkRowBg] using hc.1
      · rw [if_neg hc] at hr
        exact ih seen acc hacc r hr

/-- `bgGridLoop` adds no `insertResults` write, and keeps row accumulation
clean: its result rows all have non-empty ids. -/
theorem bgGridLoop_good (oracle : Nat → Nat → FetchOut) (sid : String) (b : Brand) (bIdx : Nat) :
    ∀ (points : List GridPoint) (gIdx : Nat) (seen : List String) (acc : List ResultRow)
      (st : BgState),
      (∀ r ∈ acc, r.place_id ≠ "") →
      (∀ rows, DbUpdate.insertResults rows ∈ st.updates → ∀ r ∈ rows, r.place_id ≠ "") →
      (∀ rows, DbUpdate.insertResults rows ∈
          (bgGridLoop oracle sid b bIdx points gIdx seen acc st).1.updates →
          ∀ r ∈ rows, r.place_id ≠ "") ∧
      (∀ r ∈ (bgGridLoop oracle sid b bIdx points gIdx seen acc st).2.1, r.place_id ≠ "") := by
  intro points
  induction points with
  | nil => intro gIdx seen acc st hacc hupd; exact ⟨hupd, hacc⟩
  | cons pt rest ih =>
    intro gIdx seen acc st hacc hupd
    simp only [bgGridLoop]
    by_cases hex : exceedsCostLimit (currentCost (st.totalApiCalls + (oracle bIdx gIdx).apiCalls)) = true
    · rw [if_pos hex]
      refine ⟨?_, hacc⟩
      intro rows hrows
      simp only [List.mem_append, List.mem_singleton] at hrows
      rcases hrows with hrows | hrows
      · exact hupd rows hrows
      · cases hrows
    · rw [if_neg hex]
      refine ih (gIdx + 1) _ _ _ (collectPlaces_place_id sid b _ _ _ hacc) ?_
      intro rows hrows
      by_cases hmod : ((st.currentOperation + 1) % 10 == 0) = true
      · rw [if_pos hmod] at hrows
        simp only [List.mem_append, List.mem_singleton] at hrows
        rcases hrows with hrows | hrows
        · exact hupd rows hrows
        · cases hrows
      · rw [if_neg hmod] at hrows
        exact hupd rows hrows

/-- `bgBrandLoop` preserves: every `insertResults` write carries only rows
with non-empty `place_id`. -/
theorem bgBrandLoop_good (oracle : Nat → Nat → FetchOut) (sid : String) (grid : List GridPoint) :
    ∀ (bs : List Brand) (bIdx : Nat) (st : BgState),
      (∀ rows, DbUpdate.insertResults rows ∈ st.updates → ∀ r ∈ rows, r.place_id ≠ "") →
      ∀ rows, DbUpdate.insertResults rows ∈ (bgBrandLoop oracle sid grid bs bIdx st).1.updates →
        ∀ r ∈ rows, r.place_id ≠ "" := by
  intro bs
  induction bs with
  | nil => intro bIdx st hupd; exact hupd
  | cons b rest ih =>
    intro bIdx st hupd
    simp only [bgBrandLoop]
    obtain ⟨hupd', hacc'⟩ :=
      bgGridLoop_good oracle sid b bIdx grid 0 [] [] st (by simp) hupd
    by_cases hab : (bgGridLoop oracle sid b bIdx grid 0 [] [] st).2.2 = true
    · rw [if_pos hab]
      exact hupd'
    · rw [if_neg hab]
      refine ih (bIdx + 1) _ ?_
      intro rows hrows
      by_cases hemp : (bgGridLoop oracle sid b bIdx grid 0 [] [] st).2.1.isEmpty = true
      · simp only [hemp, if_pos rfl, List.mem_append, List.mem_singleton] at hrows
        rcases hrows with hrows | hrows
        · exact hupd' rows hrows
        · cases hrows
      · simp only [hemp] at hrows
        simp only [Bool.false_eq_true, if_false, List.append_assoc, List.mem_append,
          List.mem_singleton] at hrows
        rcases hrows with hrows | hrows | hrows
        · exact hupd' rows hrows
        · cases hrows
          exact hacc'
        · cases hrows

/-- **C5.** Within one deduplication scope a place id is accepted exactly on
its first occurrence and rejected on every later occurrence, in first-seen
order — `deduplicatePlaces` coincides with the spec-side first-occurrence
filter — and a place whose id is missing or empty is never accepted and never
reaches a persisted `ResultRecord`: every row of every `insertResults` write
the background orchestrator issues has a non-empty `place_id`. -/
theorem dedup_first_occurrence (l : List RawPlace) :
    deduplicatePlaces l = specFirstSeen l ∧
    (∀ p ∈ deduplicatePlaces l, truthyId p.place_id = true) ∧
    (∀ (sid : String) (brands : List Brand) (grid : List GridPoint)
        (oracle : Nat → Nat → FetchOut) (rows : List ResultRow),
      DbUpdate.insertResults rows ∈ (runScrapingInBackground sid brands grid oracle).updates →
      ∀ r ∈ rows, r.place_id ≠ "") := by
  refine ⟨?_, ?_, ?_⟩
  · have h := dedupGo_eq_specFirstSeen l []
    have hfilter : l.filter (notSeen []) = l := by
      have : ∀ a ∈ l, notSeen [] a = true := by
        intro a _
        cases hq : a.place_id <;> simp [notSeen, hq]
      calc l.filter (notSeen []) = l.filter (fun _ => true) :=
            List.filter_congr (by intro a ha; rw [this a ha])
        _ = l := List.filter_true l
    rwa [hfilter] at h
  · exact fun p hp => dedupGo_mem_truthy l [] p hp
  · intro sid brands grid oracle rows hrows r hr
    unfold runScrapingInBackground at hrows
    by_cases hab : (bgBrandLoop oracle sid grid brands 0
        { currentOperation := 0, totalApiCalls := 0, fetchCalls := 0,
          updates := [DbUpdate.inProgress (brands.length * grid.length)] }).2 = true
    · rw [if_pos hab] at hrows
      refine bgBrandLoop_good oracle sid grid brands 0 _ ?_ rows hrows r hr
      intro rows' hrows'
      simp only [List.mem_singleton] at hrows'
      cases hrows'
    · rw [if_neg hab] at hrows
      simp only [List.mem_append, List.mem_singleton] at hrows
      rcases hrows with hrows | hrows
      · refine bgBrandLoop_good oracle sid grid brands 0 _ ?_ rows hrows r hr
        intro rows' hrows'
        simp only [List.mem_singleton] at hrows'
        cases hrows'
      · cases hrows

/-- Witness for `dedup_first_occurrence`: ids `a, b, a, "", missing` — the
duplicate `a`, the empty id and the missing id are dropped; and a one-brand,
one-point job persists only rows with non-empty ids. -/
theorem dedup_first_occurrence_witness :
    deduplicatePlaces
        [{ place_id := some "a", name := none, vicinity := none, types := none, geometry := none, business_status := none },
          { place_id := some "b", name := none, vicinity := none, types := none, geometry := none, business_status := none },
          { place_id := some "a", name := none, vicinity := none, types := none, geometry := none, business_status := none },
          { place_id := some "", name := none, vicinity := none, types := none, geometry := none, business_status := none },
          { place_id := none, name := none, vicinity := none, types := none, geometry := none, business_status := none }] =
      specFirstSeen
        [{ place_id := some "a", name := none, vicinity := none, types := none, geometry := none, business_status := none },
          { place_id := some "b", name := none, vicinity := none, types := none, geometry := none, business_status := none },
          { place_id := some "a", name := none, vicinity := none, types := none, geometry := none, business_status := none },
          { place_id := some "", name := none, vicinity := none, types := none, geometry := none, business_status := none },
          { place_id := none, name := none, vicinity := none, types := none, geometry := none, business_status := none }] ∧
    truthyId (some "a") = true ∧
    (mkRowBg "s" { brand := "b", sku := "k", category := "c" }
        { place_id := some "a", name := none, vicinity := none, types := none, geometry := none, business_status := none }
        "a").place_id ≠ "" := by
  refine ⟨(dedup_first_occurrence _).1, ?_, ?_⟩
  · exact (dedup_first_occurrence
      [{ place_id := some "a", name := none, vicinity := none, types := none, geometry := none, business_status := none },
        { place_id := some "b", name := none, vicinity := none, types := none, geometry := none, business_status := none },
        { place_id := some "a", name := none, vicinity := none, types := none, geometry := none, business_status := none },
        { place_id := some "", name := none, vicinity := none, types := none, geometry := none, business_status := none },
        { place_id := none, name := none, vicinity := none, types := none, geometry := none, business_status := none }]).2.1
      { place_id := some "a", name := none, vicinity := none, types := none, geometry := none, business_status := none }
      (by decide)
  · have ha : (("a" : String) = "") = False := by decide
    refine (dedup_first_occurrence []).2.2 "s" [{ brand := "b", sku := "k", category := "c" }]
      [{ lat := 0, lng := 0 }]
      (fun _ _ => { places := [{ place_id := some "a", name := none, vicinity := none, types := none, geometry := none, business_status := none }], apiCalls := 0 })
      [mkRowBg "s" { brand := "b", sku := "k", category := "c" }
        { place_id := some "a", name := none, vicinity := none, types := none, geometry := none, business_status := none } "a"]
      ?_ _ (List.mem_singleton.mpr rfl)
    norm_num [runScrapingInBackground, bgBrandLoop, bgGridLoop, collectPlaces, currentCost,
      exceedsCostLimit, insertedCount, ha]

/-! ## Claim C8 — message ordering on the live stream -/

/-- The grid loop appends only messages: non-terminal ones if it returns
normally, and non-terminal ones followed by exactly one final `error` if the
cost-limit abort fires. -/
theorem sseGridLoop_msgs (oracle : Nat → Nat → FetchOut) (sid : String) (b : Brand)
    (bIdx totalBrands totalOperations gridLen : Nat) :
    ∀ (points : List GridPoint) (gIdx : Nat) (acc : List ResultRow) (st : SseState),
      ∃ mid,
        (sseGridLoop oracle sid b bIdx totalBrands totalOperations gridLen
            points gIdx acc st).1.msgs = st.msgs ++ mid ∧
        (((sseGridLoop oracle sid b bIdx totalBrands totalOperations gridLen
              points gIdx acc st).2.2 = true ∧
            ∃ mid0, mid = mid0 ++ [Msg.error "Cost limit of ₹20,000 exceeded"] ∧
              ∀ m ∈ mid0, m.isTerminal = false) ∨
          ((sseGridLoop oracle sid b bIdx totalBrands totalOperations gridLen
              points gIdx acc st).2.2 = false ∧
            ∀ m ∈ mid, m.isTerminal = false)) := by
  intro points
  induction points with
  | nil =>
    intro gIdx acc st
    exact ⟨[], by simp [sseGridLoop], Or.inr ⟨rfl, by simp⟩⟩
  | cons pt rest ih =>
    intro gIdx acc st
    simp only [sseGridLoop]
    set pmsg := Msg.progress (st.currentOperation + 1) totalOperations
      (pct (st.currentOperation + 1) totalOperations) b.brand (bIdx + 1) totalBrands
      (some (gIdx + 1, gridLen)) with hpmsg
    set cmsg := Msg.costUpdate (currentCost (st.totalApiCalls + (oracle bIdx gIdx).apiCalls))
      (st.totalApiCalls + (oracle bIdx gIdx).apiCalls) with hcmsg
    by_cases hex :
      exceedsCostLimit (currentCost (st.totalApiCalls + (oracle bIdx gIdx).apiCalls)) = true
    · rw [if_pos hex]
      refine ⟨[pmsg, cmsg, Msg.error "Cost limit of ₹20,000 exceeded"], by simp,
        Or.inl ⟨rfl, ⟨[pmsg, cmsg], rfl, ?_⟩⟩⟩
      intro m hm
      rcases List.mem_cons.mp hm with rfl | hm
      · rw [hpmsg]; rfl
      · rcases List.mem_singleton.mp hm with rfl
        rw [hcmsg]; rfl
    · rw [if_neg hex]
      obtain ⟨mid, hmsgs, hcase⟩ := ih (gIdx + 1)
        (collectPlaces sid b (oracle bIdx gIdx).places st.seen acc).2
        { st with
            currentOperation := st.currentOperation + 1,
            totalApiCalls := st.totalApiCalls + (oracle bIdx gIdx).apiCalls,
            fetchCalls := st.fetchCalls + 1,
            seen := (collectPlaces sid b (oracle bIdx gIdx).places st.seen acc).1,
            msgs := st.msgs ++ [pmsg] ++ [cmsg] }
      refine ⟨[pmsg, cmsg] ++ mid, ?_, ?_⟩
      · rw [hmsgs]
        simp
      · rcases hcase with ⟨hab, mid0, hmid0, hnt⟩ | ⟨hab, hnt⟩
        · refine Or.inl ⟨hab, pmsg :: cmsg :: mid0, by rw [hmid0]; simp, ?_⟩
          intro m hm
          rcases List.mem_cons.mp hm with rfl | hm
          · rw [hpmsg]; rfl
          rcases List.mem_cons.mp hm with rfl | hm
          · rw [hcmsg]; rfl
          exact hnt m hm
        · refine Or.inr ⟨hab, ?_⟩
          intro m hm
          rcases List.mem_cons.mp hm with rfl | hm
          · rw [hpmsg]; rfl
          rcases List.mem_cons.mp hm with rfl | hm
          · rw [hcmsg]; rfl
          exact hnt m hm

/-- The brand loop likewise: its messages are non-terminal, except for a
single final `error` in the aborted case. -/
theorem sseBrandLoop_msgs (oracle : Nat → Nat → FetchOut) (sid : String) (grid : List GridPoint)
    (totalBrands totalOperations : Nat) :
    ∀ (bs : List Brand) (bIdx : Nat) (st : SseState),
      ∃ mid,
        (sseBrandLoop oracle sid grid totalBrands totalOperations bs bIdx st).1.msgs =
          st.msgs ++ mid ∧
        (((sseBrandLoop oracle sid grid totalBrands totalOperations bs bIdx st).2 = true ∧
            ∃ mid0, mid = mid0 ++ [Msg.error "Cost limit of ₹20,000 exceeded"] ∧
              ∀ m ∈ mid0, m.isTerminal = false) ∨
          ((sseBrandLoop oracle sid grid totalBrands totalOperations bs bIdx st).2 = false ∧
            ∀ m ∈ mid, m.isTerminal = false)) := by
  intro bs
  induction bs with
  | nil =>
    intro bIdx st
    exact ⟨[], by simp [sseBrandLoop], Or.inr ⟨rfl, by simp⟩⟩
  | cons b rest ih =>
    intro bIdx st
    simp only [sseBrandLoop]
    obtain ⟨midg, hmsgs, hcase⟩ := sseGridLoop_msgs oracle sid b bIdx totalBrands
      totalOperations grid.length grid 0 []
      { st with msgs := st.msgs ++
          [Msg.progress st.currentOperation totalOperations
            (pct st.currentOperation totalOperations) b.brand (bIdx + 1) totalBrands none] }
    set r := sseGridLoop oracle sid b bIdx totalBrands totalOperations grid.length grid 0 []
      { st with msgs := st.msgs ++
          [Msg.progress st.currentOperation totalOperations
            (pct st.currentOperation totalOperations) b.brand (bIdx + 1) totalBrands none] }
      with hr
    by_cases hab : r.2.2 = true
    · rw [if_pos hab]
      rcases hcase with ⟨_, mid0, hmid0, hnt⟩ | ⟨hab', _⟩
      · refine ⟨Msg.progress st.currentOperation totalOperations
            (pct st.currentOperation totalOperations) b.brand (bIdx + 1) totalBrands none
            :: midg, by rw [hmsgs]; simp, Or.inl ⟨rfl, ?_⟩⟩
        refine ⟨Msg.progress st.currentOperation totalOperations
            (pct st.currentOperation totalOperations) b.brand (bIdx + 1) totalBrands none
            :: mid0, by rw [hmid0]; simp, ?_⟩
        intro m hm
        rcases List.mem_cons.mp hm with rfl | hm
        · rfl
        · exact hnt m hm
      · rw [hab] at hab'; cases hab'
    · rw [if_neg hab]
      rcases hcase with ⟨hab', _⟩ | ⟨_, hntg⟩
      · rw [hab'] at hab; cases hab rfl
      · by_cases hemp : r.2.1.isEmpty = true
        · rw [if_pos hemp]
          obtain ⟨midr, hmsgsr, hcaser⟩ := ih (bIdx + 1)
            { { r.1 with insertedRows := r.1.insertedRows + r.2.1.length } with
                updates := { r.1 with
                    insertedRows := r.1.insertedRows + r.2.1.length }.updates ++
                  [DbUpdate.sseBrandUpdate
                    { r.1 with insertedRows := r.1.insertedRows + r.2.1.length }.currentOperation
                    (currentCost { r.1 with
                      insertedRows := r.1.insertedRows + r.2.1.length }.totalApiCalls)] }
          refine ⟨(Msg.progress st.currentOperation totalOperations
              (pct st.currentOperation totalOperations) b.brand (bIdx + 1) totalBrands none
              :: midg) ++ midr, ?_, ?_⟩
          · rw [hmsgsr]
            simp only []
            rw [hmsgs]
            simp
          · rcases hcaser with ⟨habr, mid0, hmid0, hnt0⟩ | ⟨habr, hntr⟩
            · refine Or.inl ⟨habr, (Msg.progress st.currentOperation totalOperations
                (pct st.currentOperation totalOperations) b.brand (bIdx + 1) totalBrands none
                :: midg) ++ mid0, by rw [hmid0]; simp, ?_⟩
              intro m hm
              rcases List.mem_append.mp hm with hm | hm
              · rcases List.mem_cons.mp hm with rfl | hm
                · rfl
                · exact hntg m hm
              · exact hnt0 m hm
            · refine Or.inr ⟨habr, ?_⟩
              intro m hm
              rcases List.mem_append.mp hm with hm | hm
              · rcases List.mem_cons.mp hm with rfl | hm
                · rfl
                · exact hntg m hm
              · exact hntr m hm
        · rw [if_neg hemp]
          obtain ⟨midr, hmsgsr, hcaser⟩ := ih (bIdx + 1)
            { { { r.1 with insertedRows := r.1.insertedRows + r.2.1.length } with
                  updates := { r.1 with
                      insertedRows := r.1.insertedRows + r.2.1.length }.updates ++
                    [DbUpdate.insertResults r.2.1] } with
                updates := { { r.1 with insertedRows := r.1.insertedRows + r.2.1.length } with
                    updates := { r.1 with
                        insertedRows := r.1.insertedRows + r.2.1.length }.updates ++
                      [DbUpdate.insertResults r.2.1] }.updates ++
                  [DbUpdate.sseBrandUpdate
                    { { r.1 with insertedRows := r.1.insertedRows + r.2.1.length } with
                        updates := { r.1 with
                            insertedRows := r.1.insertedRows + r.2.1.length }.updates ++
                          [DbUpdate.insertResults r.2.1] }.currentOperation
                    (currentCost { { r.1 with
                        insertedRows := r.1.insertedRows + r.2.1.length } with
                        updates := { r.1 with
                            insertedRows := r.1.insertedRows + r.2.1.length }.updates ++
                          [DbUpdate.insertResults r.2.1] }.totalApiCalls)] }
          refine ⟨(Msg.progress st.currentOperation totalOperations
              (pct st.currentOperation totalOperations) b.brand (bIdx + 1) totalBrands none
              :: midg) ++ midr, ?_, ?_⟩
          · rw [hmsgsr]
            simp only []
            rw [hmsgs]
            simp
          · rcases hcaser with ⟨habr, mid0, hmid0, hnt0⟩ | ⟨habr, hntr⟩
            · refine Or.inl ⟨habr, (Msg.progress st.currentOperation totalOperations
                (pct st.currentOperation totalOperations) b.brand (bIdx + 1) totalBrands none
                :: midg) ++ mid0, by rw [hmid0]; simp, ?_⟩
              intro m hm
              rcases List.mem_append.mp hm with hm | hm
              · rcases List.mem_cons.mp hm with rfl | hm
                · rfl
                · exact hntg m hm
              · exact hnt0 m hm
            · refine Or.inr ⟨habr, ?_⟩
              intro m hm
              rcases List.mem_append.mp hm with hm | hm
              · rcases List.mem_cons.mp hm with rfl | hm
                · rfl
                · exact hntg m hm
              · exact hntr m hm

/-- **C8 counterexample.** When the initial `scraping_sessions.insert` fails,
the outer catch emits a lone `error` message: the stream's first message is
not a `start` message, refuting the claim's "a start message first" for that
job. -/
theorem scrapeStream_no_start_cex :
    scrapeStream "s" [{ brand := "b", sku := "k", category := "c" }] [{ lat := 0, lng := 0 }]
        (fun _ _ => { places := [], apiCalls := 0 }) false =
      [Msg.error "Failed to create scraping session"] ∧
    (scrapeStream "s" [{ brand := "b", sku := "k", category := "c" }] [{ lat := 0, lng := 0 }]
        (fun _ _ => { places := [], apiCalls := 0 }) false).head? =
      some (Msg.error "Failed to create scraping session") := by
  exact ⟨rfl, rfl⟩

/-- **C8 (amended).** For a single job, messages reach the live stream in
exactly the order the orchestrator produces them.  When the job's session
record is created successfully, the stream is a `start` message first, then
interleaved non-terminal progress/cost-update messages, then exactly one
terminal message (`complete` or `error`) — never both and with no message
after it.  When session creation fails, the stream consists of the single
terminal `error` message (and in particular does not begin with `start`). -/
theorem scrapeStream_message_order (sid : String) (brands : List Brand) (grid : List GridPoint)
    (oracle : Nat → Nat → FetchOut) (sessionOk : Bool) :
    (sessionOk = false → scrapeStream sid brands grid oracle sessionOk =
      [Msg.error "Failed to create scraping session"]) ∧
    (sessionOk = true → ∃ mid last,
      scrapeStream sid brands grid oracle sessionOk =
        Msg.start (brands.length * grid.length) :: (mid ++ [last]) ∧
      (∀ m ∈ mid, m.isTerminal = false) ∧ last.isTerminal = true ∧
      Msg.isTerminal (Msg.start (brands.length * grid.length)) = false) := by
  constructor
  · intro h
    rw [h]
    rfl
  · intro h
    obtain ⟨mid, hmsgs, hcase⟩ := sseBrandLoop_msgs oracle sid grid brands.length
      (brands.length * grid.length) brands 0
      { currentOperation := 0, totalApiCalls := 0, seen := [], insertedRows := 0,
        msgs := [Msg.start (brands.length * grid.length)], fetchCalls := 0,
        updates := [DbUpdate.sseSessionCreated (brands.length * grid.length)] }
    unfold scrapeStream scrapeRun
    rw [h, if_pos rfl]
    set r := sseBrandLoop oracle sid grid brands.length (brands.length * grid.length) brands 0
      { currentOperation := 0, totalApiCalls := 0, seen := [], insertedRows := 0,
        msgs := [Msg.start (brands.length * grid.length)], fetchCalls := 0,
        updates := [DbUpdate.sseSessionCreated (brands.length * grid.length)] } with hrdef
    rcases hcase with ⟨hab, mid0, hmid0, hnt⟩ | ⟨hab, hnt⟩
    · rw [if_pos hab]
      refine ⟨mid0, Msg.error "Cost limit of ₹20,000 exceeded", ?_, hnt, rfl, rfl⟩
      rw [hmsgs, hmid0]
      simp
    · rw [if_neg (by rw [hab]; exact Bool.false_ne_true)]
      refine ⟨mid, Msg.complete r.1.insertedRows (currentCost r.1.totalApiCalls), ?_, hnt, rfl, rfl⟩
      show r.1.msgs ++ [Msg.complete r.1.insertedRows (currentCost r.1.totalApiCalls)] =
        Msg.start (brands.length * grid.length) ::
          (mid ++ [Msg.complete r.1.insertedRows (currentCost r.1.totalApiCalls)])
      rw [hmsgs]
      simp

/-- Witness for `scrapeStream_message_order`: a one-brand, one-point job with
a session record successfully created. -/
theorem scrapeStream_message_order_witness :
    ∃ mid last,
      scrapeStream "s" [{ brand := "b", sku := "k", category := "c" }] [{ lat := 0, lng := 0 }]
          (fun _ _ => { places := [], apiCalls := 0 }) true =
        Msg.start (1 * 1) :: (mid ++ [last]) ∧
      (∀ m ∈ mid, m.isTerminal = false) ∧ last.isTerminal = true ∧
      Msg.isTerminal (Msg.start (1 * 1)) = false :=
  (scrapeStream_message_order "s" [{ brand := "b", sku := "k", category := "c" }]
    [{ lat := 0, lng := 0 }] (fun _ _ => { places := [], apiCalls := 0 }) true).2 rfl

/-! ## Claim C3 — cost-ceiling abort is fatal for the whole job -/

theorem takeSum_zero (cs : List Nat) : takeSum cs 0 = 0 := rfl

theorem takeSum_cons_succ (c : Nat) (cs : List Nat) (j : Nat) :
    takeSum (c :: cs) (j + 1) = c + takeSum cs j := by
  simp [takeSum, List.take_succ_cons]

theorem takeSum_append (A B : List Nat) (j : Nat) :
    takeSum (A ++ B) (A.length + j) = A.sum + takeSum B j := by
  simp [takeSum, List.take_append]

theorem takeSum_append_of_le (A B : List Nat) (j : Nat) (h : j ≤ A.length) :
    takeSum (A ++ B) j = takeSum A j := by
  simp [takeSum, List.take_append_of_le_length h]

theorem takeSum_length (A : List Nat) : takeSum A A.length = A.sum := by
  simp [takeSum]

theorem gridCalls_length (oracle : Nat → Nat → FetchOut) (bIdx : Nat) :
    ∀ (points : List GridPoint) (gIdx : Nat),
      (gridCalls oracle bIdx points gIdx).length = points.length := by
  intro points
  induction points with
  | nil => intro gIdx; rfl
  | cons pt rest ih => intro gIdx; simp [gridCalls, ih (gIdx + 1)]

theorem jobCalls_length (oracle : Nat → Nat → FetchOut) (grid : List GridPoint) :
    ∀ (bs : List Brand) (bIdx : Nat),
      (jobCalls oracle grid bs bIdx).length = bs.length * grid.length := by
  intro bs
  induction bs with
  | nil => intro bIdx; simp [jobCalls]
  | cons b rest ih =>
    intro bIdx
    simp only [jobCalls, List.length_append, gridCalls_length, ih (bIdx + 1), List.length_cons]
    ring

theorem isProgressU_not_terminal (u : DbUpdate) (h : isProgressU u = true) :
    isCompleteU u = false ∧ isFailedU u = false := by
  cases u <;> simp_all [isProgressU, isCompleteU, isFailedU]

/-- Grid loop, no breach among the remaining points: the loop runs to the end,
each operation issues one fetch, and the only session writes added are
`.progress` checkpoints whose `completed_operations` stays at or below the
final operation counter. -/
theorem bgGridLoop_no_breach (oracle : Nat → Nat → FetchOut) (sid : String) (b : Brand)
    (bIdx : Nat) :
    ∀ (points : List GridPoint) (gIdx : Nat) (seen : List String) (acc : List ResultRow)
      (st : BgState),
      (∀ j ≤ points.length, exceedsCostLimit (currentCost
          (st.totalApiCalls + takeSum (gridCalls oracle bIdx points gIdx) j)) = false) →
      (bgGridLoop oracle sid b bIdx points gIdx seen acc st).2.2 = false ∧
      (bgGridLoop oracle sid b bIdx points gIdx seen acc st).1.currentOperation =
        st.currentOperation + points.length ∧
      (bgGridLoop oracle sid b bIdx points gIdx seen acc st).1.fetchCalls =
        st.fetchCalls + points.length ∧
      (bgGridLoop oracle sid b bIdx points gIdx seen acc st).1.totalApiCalls =
        st.totalApiCalls + (gridCalls oracle bIdx points gIdx).sum ∧
      ∃ upd, (bgGridLoop oracle sid b bIdx points gIdx seen acc st).1.updates =
          st.updates ++ upd ∧
        ∀ u ∈ upd, isProgressU u = true ∧
          ∀ c, updCompletedOps u = some c → c ≤ st.currentOperation + points.length := by
  intro points
  induction points with
  | nil =>
    intro gIdx seen acc st hok
    exact ⟨rfl, by simp [bgGridLoop, gridCalls], by simp [bgGridLoop],
      by simp [bgGridLoop, gridCalls], [], by simp [bgGridLoop], by simp⟩
  | cons pt rest ih =>
    intro gIdx seen acc st hok
    have hex : exceedsCostLimit (currentCost
        (st.totalApiCalls + (oracle bIdx gIdx).apiCalls)) = false := by
      have h1 := hok 1 (by simp)
      rwa [gridCalls, takeSum_cons_succ, takeSum_zero, Nat.add_zero] at h1
    simp only [bgGridLoop, List.length_cons]
    rw [if_neg (by rw [hex]; exact Bool.false_ne_true)]
    have hokrest : ∀ st' : BgState, st'.totalApiCalls = st.totalApiCalls + (oracle bIdx gIdx).apiCalls →
        ∀ j ≤ rest.length, exceedsCostLimit (currentCost
          (st'.totalApiCalls + takeSum (gridCalls oracle bIdx rest (gIdx + 1)) j)) = false := by
      intro st' hst' j hj
      have h := hok (j + 1) (by simpa using Nat.succ_le_succ hj)
      rw [gridCalls, takeSum_cons_succ] at h
      rw [hst', Nat.add_assoc]
      exact h
    by_cases hmod : ((st.currentOperation + 1) % 10 == 0) = true
    · rw [if_pos hmod]
      obtain ⟨hab, hcur, hfetch, htot, upd, hupd, hbound⟩ := ih (gIdx + 1)
        (collectPlaces sid b (oracle bIdx gIdx).places seen acc).1
        (collectPlaces sid b (oracle bIdx gIdx).places seen acc).2
        { st with
            currentOperation := st.currentOperation + 1,
            fetchCalls := st.fetchCalls + 1,
            totalApiCalls := st.totalApiCalls + (oracle bIdx gIdx).apiCalls,
            updates := st.updates ++
              [DbUpdate.progress (st.currentOperation + 1)
                (currentCost (st.totalApiCalls + (oracle bIdx gIdx).apiCalls))
                b.brand (bIdx + 1)] }
        (hokrest _ rfl)
      refine ⟨hab, by rw [hcur]; simp; omega, by rw [hfetch]; simp; omega,
        by rw [htot]; simp [gridCalls]; omega, ?_⟩
      refine ⟨DbUpdate.progress (st.currentOperation + 1)
          (currentCost (st.totalApiCalls + (oracle bIdx gIdx).apiCalls))
          b.brand (bIdx + 1) :: upd, by rw [hupd]; simp, ?_⟩
      intro u hu
      rcases List.mem_cons.mp hu with rfl | hu
      · exact ⟨rfl, by intro c hc; simp [updCompletedOps] at hc; omega⟩
      · obtain ⟨hp, hb⟩ := hbound u hu
        exact ⟨hp, fun c hc => by have := hb c hc; simp at this; omega⟩
    · rw [if_neg hmod]
      obtain ⟨hab, hcur, hfetch, htot, upd, hupd, hbound⟩ := ih (gIdx + 1)
        (collectPlaces sid b (oracle bIdx gIdx).places seen acc).1
        (collectPlaces sid b (oracle bIdx gIdx).places seen acc).2
        { st with
            currentOperation := st.currentOperation + 1,
            fetchCalls := st.fetchCalls + 1,
            totalApiCalls := st.totalApiCalls + (oracle bIdx gIdx).apiCalls }
        (hokrest _ rfl)
      refine ⟨hab, by rw [hcur]; simp; omega, by rw [hfetch]; simp; omega,
        by rw [htot]; simp [gridCalls]; omega, ?_⟩
      refine ⟨upd, by rw [hupd], ?_⟩
      intro u hu
      obtain ⟨hp, hb⟩ := hbound u hu
      exact ⟨hp, fun c hc => by have := hb c hc; simp at this; omega⟩

/-- Grid loop, breach at the `j0`-th remaining operation: the loop issues
exactly `j0` fetches, appends checkpoints only for the earlier operations,
writes the cost-limit failure as its last update and aborts. -/
theorem bgGridLoop_breach (oracle : Nat → Nat → FetchOut) (sid : String) (b : Brand)
    (bIdx : Nat) :
    ∀ (points : List GridPoint) (gIdx : Nat) (seen : List String) (acc : List ResultRow)
      (st : BgState) (j0 : Nat),
      1 ≤ j0 → j0 ≤ points.length →
      exceedsCostLimit (currentCost
        (st.totalApiCalls + takeSum (gridCalls oracle bIdx points gIdx) j0)) = true →
      (∀ j < j0, exceedsCostLimit (currentCost
        (st.totalApiCalls + takeSum (gridCalls oracle bIdx points gIdx) j)) = false) →
      (bgGridLoop oracle sid b bIdx points gIdx seen acc st).2.2 = true ∧
      (bgGridLoop oracle sid b bIdx points gIdx seen acc st).1.currentOperation =
        st.currentOperation + j0 ∧
      (bgGridLoop oracle sid b bIdx points gIdx seen acc st).1.fetchCalls =
        st.fetchCalls + j0 ∧
      (bgGridLoop oracle sid b bIdx points gIdx seen acc st).1.totalApiCalls =
        st.totalApiCalls + takeSum (gridCalls oracle bIdx points gIdx) j0 ∧
      ∃ upd, (bgGridLoop oracle sid b bIdx points gIdx seen acc st).1.updates =
          st.updates ++ upd ++ [DbUpdate.failedCostLimit] ∧
        ∀ u ∈ upd, isProgressU u = true ∧
          ∀ c, updCompletedOps u = some c → c < st.currentOperation + j0 := by
  intro points
  induction points with
  | nil =>
    intro gIdx seen acc st j0 h1 h2 _ _
    simp only [List.length_nil] at h2
    omega
  | cons pt rest ih =>
    intro gIdx seen acc st j0 h1 h2 hbr hok
    simp only [bgGridLoop, List.length_cons]
    rcases Nat.exists_eq_add_of_le h1 with ⟨j0', rfl⟩
    rw [Nat.add_comm 1 j0'] at *
    by_cases hz : j0' = 0
    · subst hz
      have hex : exceedsCostLimit (currentCost
          (st.totalApiCalls + (oracle bIdx gIdx).apiCalls)) = true := by
        have := hbr
        rwa [gridCalls, takeSum_cons_succ, takeSum_zero, Nat.add_zero] at this
      rw [if_pos hex]
      refine ⟨rfl, by simp, by simp, ?_, [], by simp, by simp⟩
      rw [gridCalls, takeSum_cons_succ, takeSum_zero]
      simp
    · have hj1 : 1 ≤ j0' := Nat.one_le_iff_ne_zero.mpr hz
      have hex : exceedsCostLimit (currentCost
          (st.totalApiCalls + (oracle bIdx gIdx).apiCalls)) = false := by
        have h := hok 1 (by omega)
        rwa [gridCalls, takeSum_cons_succ, takeSum_zero, Nat.add_zero] at h
      rw [if_neg (by rw [hex]; exact Bool.false_ne_true)]
      have hbr' : exceedsCostLimit (currentCost
          ((st.totalApiCalls + (oracle bIdx gIdx).apiCalls) +
            takeSum (gridCalls oracle bIdx rest (gIdx + 1)) j0')) = true := by
        have := hbr
        rw [gridCalls, takeSum_cons_succ, ← Nat.add_assoc] at this
        exact this
      have hok' : ∀ j < j0', exceedsCostLimit (currentCost
          ((st.totalApiCalls + (oracle bIdx gIdx).apiCalls) +
            takeSum (gridCalls oracle bIdx rest (gIdx + 1)) j)) = false := by
        intro j hj
        have h := hok (j + 1) (by omega)
        rw [gridCalls, takeSum_cons_succ, ← Nat.add_assoc] at h
        exact h
      by_cases hmod : ((st.currentOperation + 1) % 10 == 0) = true
      · rw [if_pos hmod]
        obtain ⟨hab, hcur, hfetch, htot, upd, hupd, hbound⟩ := ih (gIdx + 1)
          (collectPlaces sid b (oracle bIdx gIdx).places seen acc).1
          (collectPlaces sid b (oracle bIdx gIdx).places seen acc).2
          { st with
              currentOperation := st.currentOperation + 1,
              fetchCalls := st.fetchCalls + 1,
              totalApiCalls := st.totalApiCalls + (oracle bIdx gIdx).apiCalls,
              updates := st.updates ++
                [DbUpdate.progress (st.currentOperation + 1)
                  (currentCost (st.totalApiCalls + (oracle bIdx gIdx).apiCalls))
                  b.brand (bIdx + 1)] }
          j0' hj1 (by simpa using Nat.le_of_succ_le_succ (by simpa using h2)) hbr' hok'
        refine ⟨hab, by rw [hcur]; simp; omega, by rw [hfetch]; simp; omega, ?_, ?_⟩
        · rw [htot]
          rw [gridCalls, takeSum_cons_succ]
          simp
          omega
        · refine ⟨DbUpdate.progress (st.currentOperation + 1)
            (currentCost (st.totalApiCalls + (oracle bIdx gIdx).apiCalls))
            b.brand (bIdx + 1) :: upd, by rw [hupd]; simp, ?_⟩
          intro u hu
          rcases List.mem_cons.mp hu with rfl | hu
          · exact ⟨rfl, by intro c hc; simp [updCompletedOps] at hc; omega⟩
          · obtain ⟨hp, hb⟩ := hbound u hu
            exact ⟨hp, fun c hc => by have := hb c hc; simp at this; omega⟩
      · rw [if_neg hmod]
        obtain ⟨hab, hcur, hfetch, htot, upd, hupd, hbound⟩ := ih (gIdx + 1)
          (collectPlaces sid b (oracle bIdx gIdx).places seen acc).1
          (collectPlaces sid b (oracle bIdx gIdx).places seen acc).2
          { st with
              currentOperation := st.currentOperation + 1,
              fetchCalls := st.fetchCalls + 1,
              totalApiCalls := st.totalApiCalls + (oracle bIdx gIdx).apiCalls }
          j0' hj1 (by simpa using Nat.le_of_succ_le_succ (by simpa using h2)) hbr' hok'
        refine ⟨hab, by rw [hcur]; simp; omega, by rw [hfetch]; simp; omega, ?_, ?_⟩
        · rw [htot]
          rw [gridCalls, takeSum_cons_succ]
          simp
          omega
        · refine ⟨upd, by rw [hupd], ?_⟩
          intro u hu
          obtain ⟨hp, hb⟩ := hbound u hu
          exact ⟨hp, fun c hc => by have := hb c hc; simp at this; omega⟩

/-- Brand loop, no breach in the remaining operations: runs to the end; the
added writes are checkpoints, batch inserts and after-brand updates — no
`complete`, no cost-limit failure — and every persisted
`completed_operations` stays at or below the final operation counter. -/
theorem bgBrandLoop_no_breach (oracle : Nat → Nat → FetchOut) (sid : String)
    (grid : List GridPoint) :
    ∀ (bs : List Brand) (bIdx : Nat) (st : BgState),
      (∀ j ≤ (jobCalls oracle grid bs bIdx).length, exceedsCostLimit (currentCost
          (st.totalApiCalls + takeSum (jobCalls oracle grid bs bIdx) j)) = false) →
      (bgBrandLoop oracle sid grid bs bIdx st).2 = false ∧
      (bgBrandLoop oracle sid grid bs bIdx st).1.currentOperation =
        st.currentOperation + bs.length * grid.length ∧
      (bgBrandLoop oracle sid grid bs bIdx st).1.fetchCalls =
        st.fetchCalls + bs.length * grid.length ∧
      (bgBrandLoop oracle sid grid bs bIdx st).1.totalApiCalls =
        st.totalApiCalls + (jobCalls oracle grid bs bIdx).sum ∧
      ∃ upd, (bgBrandLoop oracle sid grid bs bIdx st).1.updates = st.updates ++ upd ∧
        ∀ u ∈ upd, isCompleteU u = false ∧ isFailedU u = false ∧
          ∀ c, updCompletedOps u = some c → c ≤ st.currentOperation + bs.length * grid.length := by
  intro bs
  induction bs with
  | nil =>
    intro bIdx st hok
    exact ⟨rfl, by simp [bgBrandLoop], by simp [bgBrandLoop],
      by simp [bgBrandLoop, jobCalls], [], by simp [bgBrandLoop], by simp⟩
  | cons b rest ih =>
    intro bIdx st hok
    have hlenj : (jobCalls oracle grid (b :: rest) bIdx).length =
        grid.length + rest.length * grid.length := by
      rw [jobCalls_length]; simp [List.length_cons]; ring
    have hokA : ∀ j ≤ grid.length, exceedsCostLimit (currentCost
        (st.totalApiCalls + takeSum (gridCalls oracle bIdx grid 0) j)) = false := by
      intro j hj
      have h := hok j (by rw [hlenj]; omega)
      rwa [jobCalls, takeSum_append_of_le _ _ j
        (by rw [gridCalls_length]; exact hj)] at h
    obtain ⟨habg, hcurg, hfetchg, htotg, updg, hupdg, hboundg⟩ :=
      bgGridLoop_no_breach oracle sid b bIdx grid 0 [] [] st hokA
    simp only [bgBrandLoop]
    rcases hsplit : bgGridLoop oracle sid b bIdx grid 0 [] [] st with ⟨st1, acc1, ab1⟩
    rw [hsplit] at habg hcurg hfetchg htotg hupdg
    simp only at habg hcurg hfetchg htotg hupdg
    rw [habg]
    simp only [Bool.false_eq_true, if_false]
    have hGlen : (gridCalls oracle bIdx grid 0).sum = takeSum (gridCalls oracle bIdx grid 0)
        (gridCalls oracle bIdx grid 0).length := (takeSum_length _).symm
    have hokR : ∀ (stx : BgState), stx.totalApiCalls = st.totalApiCalls +
        (gridCalls oracle bIdx grid 0).sum →
        ∀ j ≤ (jobCalls oracle grid rest (bIdx + 1)).length, exceedsCostLimit (currentCost
          (stx.totalApiCalls + takeSum (jobCalls oracle grid rest (bIdx + 1)) j)) = false := by
      intro stx hstx j hj
      have h := hok ((gridCalls oracle bIdx grid 0).length + j)
        (by rw [hlenj, gridCalls_length]; rw [jobCalls_length] at hj; omega)
      rw [jobCalls, takeSum_append] at h
      rw [hstx, Nat.add_assoc]
      exact h
    by_cases hemp : acc1.isEmpty = true
    · rw [if_pos hemp]
      obtain ⟨habr, hcurr, hfetchr, htotr, updr, hupdr, hboundr⟩ := ih (bIdx + 1)
        { st1 with updates := st1.updates ++
            [DbUpdate.brandDone st1.currentOperation (currentCost st1.totalApiCalls)
              b.brand (bIdx + 1)] }
        (hokR _ htotg)
      refine ⟨habr, by rw [hcurr]; simp [hcurg, List.length_cons]; ring,
        by rw [hfetchr]; simp [hfetchg, List.length_cons]; ring,
        by rw [htotr]; simp [htotg, jobCalls]; omega, ?_⟩
      refine ⟨updg ++ [DbUpdate.brandDone st1.currentOperation (currentCost st1.totalApiCalls)
          b.brand (bIdx + 1)] ++ updr, ?_, ?_⟩
      · rw [hupdr]
        simp only [hupdg]
        simp [List.append_assoc]
      · intro u hu
        simp only [List.append_assoc, List.mem_append, List.mem_singleton] at hu
        rcases hu with hu | hu | hu
        · obtain ⟨hp, hb⟩ := hboundg u hu
          obtain ⟨hc1, hc2⟩ := isProgressU_not_terminal u hp
          refine ⟨hc1, hc2, fun c hc => ?_⟩
          have := hb c hc
          simp [List.length_cons]
          calc c ≤ st.currentOperation + grid.length := this
            _ ≤ st.currentOperation + (rest.length + 1) * grid.length := by
                have : grid.length ≤ (rest.length + 1) * grid.length := by
                  calc grid.length = 1 * grid.length := (Nat.one_mul _).symm
                    _ ≤ (rest.length + 1) * grid.length :=
                        Nat.mul_le_mul_right _ (by omega)
                omega
        · subst hu
          refine ⟨rfl, rfl, fun c hc => ?_⟩
          simp only [updCompletedOps, Option.some.injEq] at hc
          subst hc
          rw [hcurg]
          simp [List.length_cons]
          have : grid.length ≤ (rest.length + 1) * grid.length := by
            calc grid.length = 1 * grid.length := (Nat.one_mul _).symm
              _ ≤ (rest.length + 1) * grid.length := Nat.mul_le_mul_right _ (by omega)
          omega
        · obtain ⟨hc1, hc2, hb⟩ := hboundr u hu
          refine ⟨hc1, hc2, fun c hc => ?_⟩
          have hthis := hb c hc
          simp at hthis
          rw [hcurg] at hthis
          have hmul : (rest.length + 1) * grid.length =
              rest.length * grid.length + grid.length := by ring
          simp [List.length_cons]
          omega
    · rw [if_neg hemp]
      obtain ⟨habr, hcurr, hfetchr, htotr, updr, hupdr, hboundr⟩ := ih (bIdx + 1)
        { { st1 with updates := st1.updates ++ [DbUpdate.insertResults acc1] } with
            updates := ({ st1 with updates := st1.updates ++ [DbUpdate.insertResults acc1] }).updates
              ++ [DbUpdate.brandDone
                ({ st1 with updates := st1.updates ++ [DbUpdate.insertResults acc1] }).currentOperation
                (currentCost ({ st1 with updates := st1.updates ++ [DbUpdate.insertResults acc1] }).totalApiCalls)
                b.brand (bIdx + 1)] }
        (hokR _ (by simp only; exact htotg))
      refine ⟨habr, by rw [hcurr]; simp [hcurg, List.length_cons]; ring,
        by rw [hfetchr]; simp [hfetchg, List.length_cons]; ring,
        by rw [htotr]; simp [htotg, jobCalls]; omega, ?_⟩
      refine ⟨updg ++ [DbUpdate.insertResults acc1] ++
          [DbUpdate.brandDone st1.currentOperation (currentCost st1.totalApiCalls)
            b.brand (bIdx + 1)] ++ updr, ?_, ?_⟩
      · rw [hupdr]
        simp only [hupdg]
        simp [List.append_assoc]
      · intro u hu
        simp only [List.append_assoc, List.mem_append, List.mem_singleton] at hu
        rcases hu with hu | hu | hu | hu
        · obtain ⟨hp, hb⟩ := hboundg u hu
          obtain ⟨hc1, hc2⟩ := isProgressU_not_terminal u hp
          refine ⟨hc1, hc2, fun c hc => ?_⟩
          have := hb c hc
          simp [List.length_cons]
          have hle : grid.length ≤ (rest.length + 1) * grid.length := by
            calc grid.length = 1 * grid.length := (Nat.one_mul _).symm
              _ ≤ (rest.length + 1) * grid.length := Nat.mul_le_mul_right _ (by omega)
          omega
        · subst hu
          exact ⟨rfl, rfl, fun c hc => by simp [updCompletedOps] at hc⟩
        · subst hu
          refine ⟨rfl, rfl, fun c hc => ?_⟩
          simp only [updCompletedOps, Option.some.injEq] at hc
          subst hc
          rw [hcurg]
          simp [List.length_cons]
          have hle : grid.length ≤ (rest.length + 1) * grid.length := by
            calc grid.length = 1 * grid.length := (Nat.one_mul _).symm
              _ ≤ (rest.length + 1) * grid.length := Nat.mul_le_mul_right _ (by omega)
          omega
        · obtain ⟨hc1, hc2, hb⟩ := hboundr u hu
          refine ⟨hc1, hc2, fun c hc => ?_⟩
          have hthis := hb c hc
          simp at hthis
          rw [hcurg] at hthis
          have hmul : (rest.length + 1) * grid.length =
              rest.length * grid.length + grid.length := by ring
          simp [List.length_cons]
          omega

/-- Brand loop, breach at the `K`-th remaining operation: exactly `K` fetches
are issued, the final session write is the cost-limit failure, no `complete`
write happens, and every persisted `completed_operations` is strictly below
`K` more than the starting counter. -/
theorem bgBrandLoop_breach (oracle : Nat → Nat → FetchOut) (sid : String)
    (grid : List GridPoint) :
    ∀ (bs : List Brand) (bIdx : Nat) (st : BgState) (K : Nat),
      1 ≤ K → K ≤ (jobCalls oracle grid bs bIdx).length →
      exceedsCostLimit (currentCost
        (st.totalApiCalls + takeSum (jobCalls oracle grid bs bIdx) K)) = true →
      (∀ j < K, exceedsCostLimit (currentCost
        (st.totalApiCalls + takeSum (jobCalls oracle grid bs bIdx) j)) = false) →
      (bgBrandLoop oracle sid grid bs bIdx st).2 = true ∧
      (bgBrandLoop oracle sid grid bs bIdx st).1.currentOperation =
        st.currentOperation + K ∧
      (bgBrandLoop oracle sid grid bs bIdx st).1.fetchCalls = st.fetchCalls + K ∧
      ∃ upd, (bgBrandLoop oracle sid grid bs bIdx st).1.updates =
          st.updates ++ upd ++ [DbUpdate.failedCostLimit] ∧
        ∀ u ∈ upd, isCompleteU u = false ∧ isFailedU u = false ∧
          ∀ c, updCompletedOps u = some c → c < st.currentOperation + K := by
  intro bs
  induction bs with
  | nil =>
    intro bIdx st K h1 h2 _ _
    simp only [jobCalls, List.length_nil] at h2
    omega
  | cons b rest ih =>
    intro bIdx st K h1 h2 hbr hok
    have hlenj : (jobCalls oracle grid (b :: rest) bIdx).length =
        grid.length + rest.length * grid.length := by
      rw [jobCalls_length]; simp [List.length_cons]; ring
    by_cases hKg : K ≤ grid.length
    · have hbrA : exceedsCostLimit (currentCost
          (st.totalApiCalls + takeSum (gridCalls oracle bIdx grid 0) K)) = true := by
        have h := hbr
        rwa [jobCalls, takeSum_append_of_le _ _ K
          (by rw [gridCalls_length]; exact hKg)] at h
      have hokA : ∀ j < K, exceedsCostLimit (currentCost
          (st.totalApiCalls + takeSum (gridCalls oracle bIdx grid 0) j)) = false := by
        intro j hj
        have h := hok j hj
        rwa [jobCalls, takeSum_append_of_le _ _ j
          (by rw [gridCalls_length]; omega)] at h
      obtain ⟨habg, hcurg, hfetchg, _, updg, hupdg, hboundg⟩ :=
        bgGridLoop_breach oracle sid b bIdx grid 0 [] [] st K h1 hKg hbrA hokA
      simp only [bgBrandLoop]
      rcases hsplit : bgGridLoop oracle sid b bIdx grid 0 [] [] st with ⟨st1, acc1, ab1⟩
      rw [hsplit] at habg hcurg hfetchg hupdg
      simp only at habg hcurg hfetchg hupdg
      rw [habg, if_pos rfl]
      refine ⟨rfl, hcurg, hfetchg, updg, hupdg, ?_⟩
      intro u hu
      obtain ⟨hp, hb⟩ := hboundg u hu
      obtain ⟨hc1, hc2⟩ := isProgressU_not_terminal u hp
      exact ⟨hc1, hc2, hb⟩
    · have hokA : ∀ j ≤ grid.length, exceedsCostLimit (currentCost
          (st.totalApiCalls + takeSum (gridCalls oracle bIdx grid 0) j)) = false := by
        intro j hj
        have h := hok j (by omega)
        rwa [jobCalls, takeSum_append_of_le _ _ j
          (by rw [gridCalls_length]; exact hj)] at h
      obtain ⟨habg, hcurg, hfetchg, htotg, updg, hupdg, hboundg⟩ :=
        bgGridLoop_no_breach oracle sid b bIdx grid 0 [] [] st hokA
      simp only [bgBrandLoop]
      rcases hsplit : bgGridLoop oracle sid b bIdx grid 0 [] [] st with ⟨st1, acc1, ab1⟩
      rw [hsplit] at habg hcurg hfetchg htotg hupdg
      simp only at habg hcurg hfetchg htotg hupdg
      rw [habg]
      simp only [Bool.false_eq_true, if_false]
      have hK' : K = grid.length + (K - grid.length) := by omega
      have hKsplit : K = (gridCalls oracle bIdx grid 0).length + (K - grid.length) := by
        rw [gridCalls_length]; omega
      have hbrR : ∀ (stx : BgState), stx.totalApiCalls = st.totalApiCalls +
          (gridCalls oracle bIdx grid 0).sum →
          exceedsCostLimit (currentCost (stx.totalApiCalls +
            takeSum (jobCalls oracle grid rest (bIdx + 1)) (K - grid.length))) = true := by
        intro stx hstx
        have h := hbr
        rw [hKsplit, jobCalls, takeSum_append] at h
        rw [hstx, Nat.add_assoc]
        exact h
      have hokR : ∀ (stx : BgState), stx.totalApiCalls = st.totalApiCalls +
          (gridCalls oracle bIdx grid 0).sum →
          ∀ j < K - grid.length, exceedsCostLimit (currentCost (stx.totalApiCalls +
            takeSum (jobCalls oracle grid rest (bIdx + 1)) j)) = false := by
        intro stx hstx j hj
        have h := hok ((gridCalls oracle bIdx grid 0).length + j)
          (by rw [gridCalls_length]; omega)
        rw [jobCalls, takeSum_append] at h
        rw [hstx, Nat.add_assoc]
        exact h
      have hKlen' : K - grid.length ≤ (jobCalls oracle grid rest (bIdx + 1)).length := by
        rw [jobCalls_length]
        rw [hlenj] at h2
        omega
      have hK1' : 1 ≤ K - grid.length := by omega
      by_cases hemp : acc1.isEmpty = true
      · rw [if_pos hemp]
        obtain ⟨habr, hcurr, hfetchr, updr, hupdr, hboundr⟩ := ih (bIdx + 1)
          { st1 with updates := st1.updates ++
              [DbUpdate.brandDone st1.currentOperation (currentCost st1.totalApiCalls)
                b.brand (bIdx + 1)] }
          (K - grid.length) hK1' hKlen' (hbrR _ htotg) (hokR _ htotg)
        refine ⟨habr, by rw [hcurr]; simp [hcurg]; omega,
          by rw [hfetchr]; simp [hfetchg]; omega, ?_⟩
        refine ⟨updg ++ [DbUpdate.brandDone st1.currentOperation
            (currentCost st1.totalApiCalls) b.brand (bIdx + 1)] ++ updr, ?_, ?_⟩
        · rw [hupdr]
          simp only [hupdg]
          simp [List.append_assoc]
        · intro u hu
          simp only [List.append_assoc, List.mem_append, List.mem_singleton] at hu
          rcases hu with hu | hu | hu
          · obtain ⟨hp, hb⟩ := hboundg u hu
            obtain ⟨hc1, hc2⟩ := isProgressU_not_terminal u hp
            refine ⟨hc1, hc2, fun c hc => ?_⟩
            have := hb c hc
            omega
          · subst hu
            refine ⟨rfl, rfl, fun c hc => ?_⟩
            simp only [updCompletedOps, Option.some.injEq] at hc
            subst hc
            rw [hcurg]
            omega
          · obtain ⟨hc1, hc2, hb⟩ := hboundr u hu
            refine ⟨hc1, hc2, fun c hc => ?_⟩
            have hthis := hb c hc
            simp at hthis
            rw [hcurg] at hthis
            omega
      · rw [if_neg hemp]
        obtain ⟨habr, hcurr, hfetchr, updr, hupdr, hboundr⟩ := ih (bIdx + 1)
          { { st1 with updates := st1.updates ++ [DbUpdate.insertResults acc1] } with
              updates := ({ st1 with updates := st1.updates ++ [DbUpdate.insertResults acc1] }).updates
                ++ [DbUpdate.brandDone
                  ({ st1 with updates := st1.updates ++ [DbUpdate.insertResults acc1] }).currentOperation
                  (currentCost ({ st1 with updates := st1.updates ++ [DbUpdate.insertResults acc1] }).totalApiCalls)
                  b.brand (bIdx + 1)] }
          (K - grid.length) hK1' hKlen' (hbrR _ (by simp only; exact htotg))
          (hokR _ (by simp only; exact htotg))
        refine ⟨habr, by rw [hcurr]; simp [hcurg]; omega,
          by rw [hfetchr]; simp [hfetchg]; omega, ?_⟩
        refine ⟨updg ++ [DbUpdate.insertResults acc1] ++
            [DbUpdate.brandDone st1.currentOperation (currentCost st1.totalApiCalls)
              b.brand (bIdx + 1)] ++ updr, ?_, ?_⟩
        · rw [hupdr]
          simp only [hupdg]
          simp [List.append_assoc]
        · intro u hu
          simp only [List.append_assoc, List.mem_append, List.mem_singleton] at hu
          rcases hu with hu | hu | hu | hu
          · obtain ⟨hp, hb⟩ := hboundg u hu
            obtain ⟨hc1, hc2⟩ := isProgressU_not_terminal u hp
            refine ⟨hc1, hc2, fun c hc => ?_⟩
            have := hb c hc
            omega
          · subst hu
            exact ⟨rfl, rfl, fun c hc => by simp [updCompletedOps] at hc⟩
          · subst hu
            refine ⟨rfl, rfl, fun c hc => ?_⟩
            simp only [updCompletedOps, Option.some.injEq] at hc
            subst hc
            rw [hcurg]
            omega
          · obtain ⟨hc1, hc2, hb⟩ := hboundr u hu
            refine ⟨hc1, hc2, fun c hc => ?_⟩
            have hthis := hb c hc
            simp at hthis
            rw [hcurg] at hthis
            omega

/-- The background orchestrator's half of the cost-limit behaviour: when the
accumulated cost first exceeds the 20000 ceiling at the `K`-th operation,
`runScrapingInBackground` stops after exactly `K` fetch calls, its final
session write is `status: 'failed'` with the cost-limit reason, no `complete`
write happens, and every persisted `completed_operations` is strictly below
`K`. -/
theorem costLimit_aborts_job (sid : String) (brands : List Brand) (grid : List GridPoint)
    (oracle : Nat → Nat → FetchOut) (K : Nat)
    (hK : K ≤ brands.length * grid.length)
    (hbr : exceedsCostLimit (currentCost (takeSum (jobCalls oracle grid brands 0) K)) = true)
    (hok : ∀ j < K, exceedsCostLimit (currentCost
      (takeSum (jobCalls oracle grid brands 0) j)) = false) :
    (runScrapingInBackground sid brands grid oracle).fetchCalls = K ∧
    (runScrapingInBackground sid brands grid oracle).updates.getLast? =
      some DbUpdate.failedCostLimit ∧
    (∀ u ∈ (runScrapingInBackground sid brands grid oracle).updates,
      ∀ c, updCompletedOps u = some c → c < K) ∧
    (∀ u ∈ (runScrapingInBackground sid brands grid oracle).updates,
      isCompleteU u = false) := by
  have h1 : 1 ≤ K := by
    rcases Nat.eq_zero_or_pos K with rfl | h
    · rw [takeSum_zero] at hbr
      norm_num [currentCost, exceedsCostLimit] at hbr
    · exact h
  obtain ⟨hab, hcur, hfetch, upd, hupd, hbound⟩ :=
    bgBrandLoop_breach oracle sid grid brands 0
      { currentOperation := 0, totalApiCalls := 0, fetchCalls := 0,
        updates := [DbUpdate.inProgress (brands.length * grid.length)] }
      K h1 (by rw [jobCalls_length]; exact hK) (by simpa using hbr)
      (by intro j hj; simpa using hok j hj)
  simp only [runScrapingInBackground]
  rw [hab, if_pos rfl]
  refine ⟨by rw [hfetch]; simp, by rw [hupd]; exact List.getLast?_concat _, ?_, ?_⟩
  · intro u hu c hc
    rw [hupd] at hu
    simp only [List.mem_append, List.mem_singleton] at hu
    rcases hu with (hu | hu) | hu
    · subst hu
      simp [updCompletedOps] at hc
    · obtain ⟨_, _, hb⟩ := hbound u hu
      have := hb c hc
      simpa using this
    · subst hu
      simp [updCompletedOps] at hc
  · intro u hu
    rw [hupd] at hu
    simp only [List.mem_append, List.mem_singleton] at hu
    rcases hu with (hu | hu) | hu
    · subst hu
      rfl
    · exact (hbound u hu).1
    · subst hu
      rfl

/-- Witness for `costLimit_aborts_job`: one brand, one grid point, and a
provider answer of 2,000,000 API calls for the single operation — cost
34000 > 20000, breach at operation 1. -/
theorem costLimit_aborts_job_witness :
    (1 : Nat) ≤ 1 * 1 ∧
    (runScrapingInBackground "s" [{ brand := "b", sku := "k", category := "c" }]
        [{ lat := 0, lng := 0 }] (fun _ _ => { places := [], apiCalls := 2000000 })).fetchCalls
      = 1 ∧
    (runScrapingInBackground "s" [{ brand := "b", sku := "k", category := "c" }]
        [{ lat := 0, lng := 0 }]
        (fun _ _ => { places := [], apiCalls := 2000000 })).updates.getLast? =
      some DbUpdate.failedCostLimit := by
  have h := costLimit_aborts_job "s" [{ brand := "b", sku := "k", category := "c" }]
    [{ lat := 0, lng := 0 }] (fun _ _ => { places := [], apiCalls := 2000000 }) 1
    (by norm_num)
    (by norm_num [jobCalls, gridCalls, takeSum, currentCost, exceedsCostLimit])
    (by
      intro j hj
      have : j = 0 := by omega
      subst this
      norm_num [takeSum_zero, currentCost, exceedsCostLimit])
  exact ⟨by norm_num, h.1, h.2.1⟩

/-- SSE grid loop, no breach among the remaining points: the loop runs to the
end; each operation issues one fetch; no session write is issued. -/
theorem sseGridLoop_no_breach (oracle : Nat → Nat → FetchOut) (sid : String) (b : Brand)
    (bIdx totalBrands totalOperations gridLen : Nat) :
    ∀ (points : List GridPoint) (gIdx : Nat) (acc : List ResultRow) (st : SseState),
      (∀ j ≤ points.length, exceedsCostLimit (currentCost
          (st.totalApiCalls + takeSum (gridCalls oracle bIdx points gIdx) j)) = false) →
      (sseGridLoop oracle sid b bIdx totalBrands totalOperations gridLen
          points gIdx acc st).2.2 = false ∧
      (sseGridLoop oracle sid b bIdx totalBrands totalOperations gridLen
          points gIdx acc st).1.currentOperation = st.currentOperation + points.length ∧
      (sseGridLoop oracle sid b bIdx totalBrands totalOperations gridLen
          points gIdx acc st).1.fetchCalls = st.fetchCalls + points.length ∧
      (sseGridLoop oracle sid b bIdx totalBrands totalOperations gridLen
          points gIdx acc st).1.totalApiCalls =
        st.totalApiCalls + (gridCalls oracle bIdx points gIdx).sum ∧
      (sseGridLoop oracle sid b bIdx totalBrands totalOperations gridLen
          points gIdx acc st).1.updates = st.updates := by
  intro points
  induction points with
  | nil =>
    intro gIdx acc st hok
    exact ⟨rfl, by simp [sseGridLoop], by simp [sseGridLoop],
      by simp [sseGridLoop, gridCalls], by simp [sseGridLoop]⟩
  | cons pt rest ih =>
    intro gIdx acc st hok
    have hex : exceedsCostLimit (currentCost
        (st.totalApiCalls + (oracle bIdx gIdx).apiCalls)) = false := by
      have h1 := hok 1 (by simp)
      rwa [gridCalls, takeSum_cons_succ, takeSum_zero, Nat.add_zero] at h1
    simp only [sseGridLoop, List.length_cons]
    set pmsg := Msg.progress (st.currentOperation + 1) totalOperations
      (pct (st.currentOperation + 1) totalOperations) b.brand (bIdx + 1) totalBrands
      (some (gIdx + 1, gridLen)) with hpmsg
    set cmsg := Msg.costUpdate (currentCost (st.totalApiCalls + (oracle bIdx gIdx).apiCalls))
      (st.totalApiCalls + (oracle bIdx gIdx).apiCalls) with hcmsg
    rw [if_neg (by rw [hex]; exact Bool.false_ne_true)]
    obtain ⟨hab, hcur, hfetch, htot, hupd⟩ := ih (gIdx + 1)
      (collectPlaces sid b (oracle bIdx gIdx).places st.seen acc).2
      { st with
          currentOperation := st.currentOperation + 1,
          totalApiCalls := st.totalApiCalls + (oracle bIdx gIdx).apiCalls,
          fetchCalls := st.fetchCalls + 1,
          seen := (collectPlaces sid b (oracle bIdx gIdx).places st.seen acc).1,
          msgs := st.msgs ++ [pmsg] ++ [cmsg] }
      (by
        intro j hj
        have h := hok (j + 1) (by simpa using Nat.succ_le_succ hj)
        rw [gridCalls, takeSum_cons_succ] at h
        simpa [Nat.add_assoc] using h)
    refine ⟨hab, by rw [hcur]; simp; omega, by rw [hfetch]; simp; omega,
      by rw [htot]; simp [gridCalls]; omega, by rw [hupd]⟩

/-- SSE grid loop, breach at the `j0`-th remaining operation: the loop issues
exactly `j0` fetches, emits the cost-limit `error` message and aborts —
without issuing any session write. -/
theorem sseGridLoop_breach (oracle : Nat → Nat → FetchOut) (sid : String) (b : Brand)
    (bIdx totalBrands totalOperations gridLen : Nat) :
    ∀ (points : List GridPoint) (gIdx : Nat) (acc : List ResultRow) (st : SseState) (j0 : Nat),
      1 ≤ j0 → j0 ≤ points.length →
      exceedsCostLimit (currentCost
        (st.totalApiCalls + takeSum (gridCalls oracle bIdx points gIdx) j0)) = true →
      (∀ j < j0, exceedsCostLimit (currentCost
        (st.totalApiCalls + takeSum (gridCalls oracle bIdx points gIdx) j)) = false) →
      (sseGridLoop oracle sid b bIdx totalBrands totalOperations gridLen
          points gIdx acc st).2.2 = true ∧
      (sseGridLoop oracle sid b bIdx totalBrands totalOperations gridLen
          points gIdx acc st).1.currentOperation = st.currentOperation + j0 ∧
      (sseGridLoop oracle sid b bIdx totalBrands totalOperations gridLen
          points gIdx acc st).1.fetchCalls = st.fetchCalls + j0 ∧
      (sseGridLoop oracle sid b bIdx totalBrands totalOperations gridLen
          points gIdx acc st).1.updates = st.updates := by
  intro points
  induction points with
  | nil =>
    intro gIdx acc st j0 h1 h2 _ _
    simp only [List.length_nil] at h2
    omega
  | cons pt rest ih =>
    intro gIdx acc st j0 h1 h2 hbr hok
    simp only [sseGridLoop, List.length_cons]
    set pmsg := Msg.progress (st.currentOperation + 1) totalOperations
      (pct (st.currentOperation + 1) totalOperations) b.brand (bIdx + 1) totalBrands
      (some (gIdx + 1, gridLen)) with hpmsg
    set cmsg := Msg.costUpdate (currentCost (st.totalApiCalls + (oracle bIdx gIdx).apiCalls))
      (st.totalApiCalls + (oracle bIdx gIdx).apiCalls) with hcmsg
    rcases Nat.exists_eq_add_of_le h1 with ⟨j0', rfl⟩
    rw [Nat.add_comm 1 j0'] at *
    by_cases hz : j0' = 0
    · subst hz
      have hex : exceedsCostLimit (currentCost
          (st.totalApiCalls + (oracle bIdx gIdx).apiCalls)) = true := by
        have := hbr
        rwa [gridCalls, takeSum_cons_succ, takeSum_zero, Nat.add_zero] at this
      rw [if_pos hex]
      exact ⟨rfl, by simp, by simp, by simp⟩
    · have hj1 : 1 ≤ j0' := Nat.one_le_iff_ne_zero.mpr hz
      have hex : exceedsCostLimit (currentCost
          (st.totalApiCalls + (oracle bIdx gIdx).apiCalls)) = false := by
        have h := hok 1 (by omega)
        rwa [gridCalls, takeSum_cons_succ, takeSum_zero, Nat.add_zero] at h
      rw [if_neg (by rw [hex]; exact Bool.false_ne_true)]
      have hbr' : exceedsCostLimit (currentCost
          ((st.totalApiCalls + (oracle bIdx gIdx).apiCalls) +
            takeSum (gridCalls oracle bIdx rest (gIdx + 1)) j0')) = true := by
        have := hbr
        rw [gridCalls, takeSum_cons_succ, ← Nat.add_assoc] at this
        exact this
      have hok' : ∀ j < j0', exceedsCostLimit (currentCost
          ((st.totalApiCalls + (oracle bIdx gIdx).apiCalls) +
            takeSum (gridCalls oracle bIdx rest (gIdx + 1)) j)) = false := by
        intro j hj
        have h := hok (j + 1) (by omega)
        rw [gridCalls, takeSum_cons_succ, ← Nat.add_assoc] at h
        exact h
      obtain ⟨hab, hcur, hfetch, hupd⟩ := ih (gIdx + 1)
        (collectPlaces sid b (oracle bIdx gIdx).places st.seen acc).2
        { st with
            currentOperation := st.currentOperation + 1,
            totalApiCalls := st.totalApiCalls + (oracle bIdx gIdx).apiCalls,
            fetchCalls := st.fetchCalls + 1,
            seen := (collectPlaces sid b (oracle bIdx gIdx).places st.seen acc).1,
            msgs := st.msgs ++ [pmsg] ++ [cmsg] }
        j0' hj1 (by simpa using Nat.le_of_succ_le_succ (by simpa using h2)) hbr' hok'
      refine ⟨hab, by rw [hcur]; simp; omega, by rw [hfetch]; simp; omega, by rw [hupd]⟩

/-- SSE brand loop, no breach in the remaining operations: runs to the end;
the added session writes are batch inserts and after-brand updates — no
status change at all — with `completed_operations` at or below the final
operation counter. -/
theorem sseBrandLoop_no_breach (oracle : Nat → Nat → FetchOut) (sid : String)
    (grid : List GridPoint) (totalBrands totalOperations : Nat) :
    ∀ (bs : List Brand) (bIdx : Nat) (st : SseState),
      (∀ j ≤ (jobCalls oracle grid bs bIdx).length, exceedsCostLimit (currentCost
          (st.totalApiCalls + takeSum (jobCalls oracle grid bs bIdx) j)) = false) →
      (sseBrandLoop oracle sid grid totalBrands totalOperations bs bIdx st).2 = false ∧
      (sseBrandLoop oracle sid grid totalBrands totalOperations bs bIdx st).1.currentOperation =
        st.currentOperation + bs.length * grid.length ∧
      (sseBrandLoop oracle sid grid totalBrands totalOperations bs bIdx st).1.fetchCalls =
        st.fetchCalls + bs.length * grid.length ∧
      (sseBrandLoop oracle sid grid totalBrands totalOperations bs bIdx st).1.totalApiCalls =
        st.totalApiCalls + (jobCalls oracle grid bs bIdx).sum ∧
      ∃ upd, (sseBrandLoop oracle sid grid totalBrands totalOperations bs bIdx st).1.updates =
          st.updates ++ upd ∧
        ∀ u ∈ upd, isFailedU u = false ∧ isCompleteU u = false ∧
          ∀ c, updCompletedOps u = some c → c ≤ st.currentOperation + bs.length * grid.length := by
  intro bs
  induction bs with
  | nil =>
    intro bIdx st hok
    exact ⟨rfl, by simp [sseBrandLoop], by simp [sseBrandLoop],
      by simp [sseBrandLoop, jobCalls], [], by simp [sseBrandLoop], by simp⟩
  | cons b rest ih =>
    intro bIdx st hok
    have hlenj : (jobCalls oracle grid (b :: rest) bIdx).length =
        grid.length + rest.length * grid.length := by
      rw [jobCalls_length]; simp [List.length_cons]; ring
    have hokA : ∀ j ≤ grid.length, exceedsCostLimit (currentCost
        (st.totalApiCalls + takeSum (gridCalls oracle bIdx grid 0) j)) = false := by
      intro j hj
      have h := hok j (by rw [hlenj]; omega)
      rwa [jobCalls, takeSum_append_of_le _ _ j
        (by rw [gridCalls_length]; exact hj)] at h
    obtain ⟨habg, hcurg, hfetchg, htotg, hupdg⟩ :=
      sseGridLoop_no_breach oracle sid b bIdx totalBrands totalOperations grid.length grid 0 []
        { st with msgs := st.msgs ++
            [Msg.progress st.currentOperation totalOperations
              (pct st.currentOperation totalOperations) b.brand (bIdx + 1) totalBrands none] }
        (by intro j hj; simpa using hokA j hj)
    simp only [sseBrandLoop]
    rcases hsplit : sseGridLoop oracle sid b bIdx totalBrands totalOperations grid.length grid 0 []
      { st with msgs := st.msgs ++
          [Msg.progress st.currentOperation totalOperations
            (pct st.currentOperation totalOperations) b.brand (bIdx + 1) totalBrands none] }
      with ⟨st1, acc1, ab1⟩
    rw [hsplit] at habg hcurg hfetchg htotg hupdg
    simp only at habg hcurg hfetchg htotg hupdg
    rw [habg]
    simp only [Bool.false_eq_true, if_false]
    have hokR : ∀ (stx : SseState), stx.totalApiCalls = st.totalApiCalls +
        (gridCalls oracle bIdx grid 0).sum →
        ∀ j ≤ (jobCalls oracle grid rest (bIdx + 1)).length, exceedsCostLimit (currentCost
          (stx.totalApiCalls + takeSum (jobCalls oracle grid rest (bIdx + 1)) j)) = false := by
      intro stx hstx j hj
      have h := hok ((gridCalls oracle bIdx grid 0).length + j)
        (by rw [hlenj, gridCalls_length]; rw [jobCalls_length] at hj; omega)
      rw [jobCalls, takeSum_append] at h
      rw [hstx, Nat.add_assoc]
      exact h
    have hmul : (rest.length + 1) * grid.length = rest.length * grid.length + grid.length := by
      ring
    by_cases hemp : acc1.isEmpty = true
    · rw [if_pos hemp]
      obtain ⟨habr, hcurr, hfetchr, htotr, updr, hupdr, hboundr⟩ := ih (bIdx + 1)
        { { st1 with insertedRows := st1.insertedRows + acc1.length } with
            updates := { st1 with insertedRows := st1.insertedRows + acc1.length }.updates ++
              [DbUpdate.sseBrandUpdate
                { st1 with insertedRows := st1.insertedRows + acc1.length }.currentOperation
                (currentCost
                  { st1 with insertedRows := st1.insertedRows + acc1.length }.totalApiCalls)] }
        (hokR _ (by simp only; exact htotg))
      refine ⟨habr, by rw [hcurr]; simp [hcurg, List.length_cons]; ring,
        by rw [hfetchr]; simp [hfetchg, List.length_cons]; ring,
        by rw [htotr]; simp [htotg, jobCalls]; omega, ?_⟩
      refine ⟨[DbUpdate.sseBrandUpdate st1.currentOperation (currentCost st1.totalApiCalls)]
          ++ updr, ?_, ?_⟩
      · rw [hupdr]
        simp only [hupdg]
        simp [List.append_assoc]
      · intro u hu
        simp only [List.mem_append, List.mem_singleton] at hu
        rcases hu with hu | hu
        · subst hu
          refine ⟨rfl, rfl, fun c hc => ?_⟩
          simp only [updCompletedOps, Option.some.injEq] at hc
          subst hc
          rw [hcurg]
          simp [List.length_cons]
          omega
        · obtain ⟨hc1, hc2, hb⟩ := hboundr u hu
          refine ⟨hc1, hc2, fun c hc => ?_⟩
          have hthis := hb c hc
          simp at hthis
          rw [hcurg] at hthis
          simp [List.length_cons]
          omega
    · rw [if_neg hemp]
      obtain ⟨habr, hcurr, hfetchr, htotr, updr, hupdr, hboundr⟩ := ih (bIdx + 1)
        { { { st1 with insertedRows := st1.insertedRows + acc1.length } with
              updates := { st1 with insertedRows := st1.insertedRows + acc1.length }.updates ++
                [DbUpdate.insertResults acc1] } with
            updates := { { st1 with insertedRows := st1.insertedRows + acc1.length } with
                updates := { st1 with insertedRows := st1.insertedRows + acc1.length }.updates ++
                  [DbUpdate.insertResults acc1] }.updates ++
              [DbUpdate.sseBrandUpdate
                { { st1 with insertedRows := st1.insertedRows + acc1.length } with
                    updates := { st1 with
                        insertedRows := st1.insertedRows + acc1.length }.updates ++
                      [DbUpdate.insertResults acc1] }.currentOperation
                (currentCost
                  { { st1 with insertedRows := st1.insertedRows + acc1.length } with
                      updates := { st1 with
                          insertedRows := st1.insertedRows + acc1.length }.updates ++
                        [DbUpdate.insertResults acc1] }.totalApiCalls)] }
        (hokR _ (by simp only; exact htotg))
      refine ⟨habr, by rw [hcurr]; simp [hcurg, List.length_cons]; ring,
        by rw [hfetchr]; simp [hfetchg, List.length_cons]; ring,
        by rw [htotr]; simp [htotg, jobCalls]; omega, ?_⟩
      refine ⟨[DbUpdate.insertResults acc1] ++
          [DbUpdate.sseBrandUpdate st1.currentOperation (currentCost st1.totalApiCalls)]
          ++ updr, ?_, ?_⟩
      · rw [hupdr]
        simp only [hupdg]
        simp [List.append_assoc]
      · intro u hu
        simp only [List.append_assoc, List.mem_append, List.mem_singleton] at hu
        rcases hu with hu | hu | hu
        · subst hu
          exact ⟨rfl, rfl, fun c hc => by simp [updCompletedOps] at hc⟩
        · subst hu
          refine ⟨rfl, rfl, fun c hc => ?_⟩
          simp only [updCompletedOps, Option.some.injEq] at hc
          subst hc
          rw [hcurg]
          simp [List.length_cons]
          omega
        · obtain ⟨hc1, hc2, hb⟩ := hboundr u hu
          refine ⟨hc1, hc2, fun c hc => ?_⟩
          have hthis := hb c hc
          simp at hthis
          rw [hcurg] at hthis
          simp [List.length_cons]
          omega

/-- SSE brand loop, breach at the `K`-th remaining operation: exactly `K`
fetches are issued and the loop aborts; the session writes added before the
abort are inserts/after-brand updates only — in particular **no** failed or
complete status write — with `completed_operations` strictly below `K` more
than the starting counter. -/
theorem sseBrandLoop_breach (oracle : Nat → Nat → FetchOut) (sid : String)
    (grid : List GridPoint) (totalBrands totalOperations : Nat) :
    ∀ (bs : List Brand) (bIdx : Nat) (st : SseState) (K : Nat),
      1 ≤ K → K ≤ (jobCalls oracle grid bs bIdx).length →
      exceedsCostLimit (currentCost
        (st.totalApiCalls + takeSum (jobCalls oracle grid bs bIdx) K)) = true →
      (∀ j < K, exceedsCostLimit (currentCost
        (st.totalApiCalls + takeSum (jobCalls oracle grid bs bIdx) j)) = false) →
      (sseBrandLoop oracle sid grid totalBrands totalOperations bs bIdx st).2 = true ∧
      (sseBrandLoop oracle sid grid totalBrands totalOperations bs bIdx st).1.currentOperation =
        st.currentOperation + K ∧
      (sseBrandLoop oracle sid grid totalBrands totalOperations bs bIdx st).1.fetchCalls =
        st.fetchCalls + K ∧
      ∃ upd, (sseBrandLoop oracle sid grid totalBrands totalOperations bs bIdx st).1.updates =
          st.updates ++ upd ∧
        ∀ u ∈ upd, isFailedU u = false ∧ isCompleteU u = false ∧
          ∀ c, updCompletedOps u = some c → c < st.currentOperation + K := by
  intro bs
  induction bs with
  | nil =>
    intro bIdx st K h1 h2 _ _
    simp only [jobCalls, List.length_nil] at h2
    omega
  | cons b rest ih =>
    intro bIdx st K h1 h2 hbr hok
    have hlenj : (jobCalls oracle grid (b :: rest) bIdx).length =
        grid.length + rest.length * grid.length := by
      rw [jobCalls_length]; simp [List.length_cons]; ring
    by_cases hKg : K ≤ grid.length
    · have hbrA : exceedsCostLimit (currentCost
          (st.totalApiCalls + takeSum (gridCalls oracle bIdx grid 0) K)) = true := by
        have h := hbr
        rwa [jobCalls, takeSum_append_of_le _ _ K
          (by rw [gridCalls_length]; exact hKg)] at h
      have hokA : ∀ j < K, exceedsCostLimit (currentCost
          (st.totalApiCalls + takeSum (gridCalls oracle bIdx grid 0) j)) = false := by
        intro j hj
        have h := hok j hj
        rwa [jobCalls, takeSum_append_of_le _ _ j
          (by rw [gridCalls_length]; omega)] at h
      obtain ⟨habg, hcurg, hfetchg, hupdg⟩ :=
        sseGridLoop_breach oracle sid b bIdx totalBrands totalOperations grid.length grid 0 []
          { st with msgs := st.msgs ++
              [Msg.progress st.currentOperation totalOperations
                (pct st.currentOperation totalOperations) b.brand (bIdx + 1) totalBrands none] }
          K h1 hKg (by simpa using hbrA) (by intro j hj; simpa using hokA j hj)
      simp only [sseBrandLoop]
      rcases hsplit : sseGridLoop oracle sid b bIdx totalBrands totalOperations grid.length
          grid 0 []
        { st with msgs := st.msgs ++
            [Msg.progress st.currentOperation totalOperations
              (pct st.currentOperation totalOperations) b.brand (bIdx + 1) totalBrands none] }
        with ⟨st1, acc1, ab1⟩
      rw [hsplit] at habg hcurg hfetchg hupdg
      simp only at habg hcurg hfetchg hupdg
      rw [habg, if_pos rfl]
      exact ⟨rfl, hcurg, hfetchg, [], by simp [hupdg], by simp⟩
    · have hokA : ∀ j ≤ grid.length, exceedsCostLimit (currentCost
          (st.totalApiCalls + takeSum (gridCalls oracle bIdx grid 0) j)) = false := by
        intro j hj
        have h := hok j (by omega)
        rwa [jobCalls, takeSum_append_of_le _ _ j
          (by rw [gridCalls_length]; exact hj)] at h
      obtain ⟨habg, hcurg, hfetchg, htotg, hupdg⟩ :=
        sseGridLoop_no_breach oracle sid b bIdx totalBrands totalOperations grid.length grid 0 []
          { st with msgs := st.msgs ++
              [Msg.progress st.currentOperation totalOperations
                (pct st.currentOperation totalOperations) b.brand (bIdx + 1) totalBrands none] }
          (by intro j hj; simpa using hokA j hj)
      simp only [sseBrandLoop]
      rcases hsplit : sseGridLoop oracle sid b bIdx totalBrands totalOperations grid.length
          grid 0 []
        { st with msgs := st.msgs ++
            [Msg.progress st.currentOperation totalOperations
              (pct st.currentOperation totalOperations) b.brand (bIdx + 1) totalBrands none] }
        with ⟨st1, acc1, ab1⟩
      rw [hsplit] at habg hcurg hfetchg htotg hupdg
      simp only at habg hcurg hfetchg htotg hupdg
      rw [habg]
      simp only [Bool.false_eq_true, if_false]
      have hKsplit : K = (gridCalls oracle bIdx grid 0).length + (K - grid.length) := by
        rw [gridCalls_length]; omega
      have hbrR : ∀ (stx : SseState), stx.totalApiCalls = st.totalApiCalls +
          (gridCalls oracle bIdx grid 0).sum →
          exceedsCostLimit (currentCost (stx.totalApiCalls +
            takeSum (jobCalls oracle grid rest (bIdx + 1)) (K - grid.length))) = true := by
        intro stx hstx
        have h := hbr
        rw [hKsplit, jobCalls, takeSum_append] at h
        rw [hstx, Nat.add_assoc]
        exact h
      have hokR : ∀ (stx : SseState), stx.totalApiCalls = st.totalApiCalls +
          (gridCalls oracle bIdx grid 0).sum →
          ∀ j < K - grid.length, exceedsCostLimit (currentCost (stx.totalApiCalls +
            takeSum (jobCalls oracle grid rest (bIdx + 1)) j)) = false := by
        intro stx hstx j hj
        have h := hok ((gridCalls oracle bIdx grid 0).length + j)
          (by rw [gridCalls_length]; omega)
        rw [jobCalls, takeSum_append] at h
        rw [hstx, Nat.add_assoc]
        exact h
      have hKlen' : K - grid.length ≤ (jobCalls oracle grid rest (bIdx + 1)).length := by
        rw [jobCalls_length]
        rw [hlenj] at h2
        omega
      have hK1' : 1 ≤ K - grid.length := by omega
      by_cases hemp : acc1.isEmpty = true
      · rw [if_pos hemp]
        obtain ⟨habr, hcurr, hfetchr, updr, hupdr, hboundr⟩ := ih (bIdx + 1)
          { { st1 with insertedRows := st1.insertedRows + acc1.length } with
              updates := { st1 with insertedRows := st1.insertedRows + acc1.length }.updates ++
                [DbUpdate.sseBrandUpdate
                  { st1 with insertedRows := st1.insertedRows + acc1.length }.currentOperation
                  (currentCost
                    { st1 with insertedRows := st1.insertedRows + acc1.length }.totalApiCalls)] }
          (K - grid.length) hK1' hKlen' (hbrR _ (by simp only; exact htotg))
          (hokR _ (by simp only; exact htotg))
        refine ⟨habr, by rw [hcurr]; simp [hcurg]; omega,
          by rw [hfetchr]; simp [hfetchg]; omega, ?_⟩
        refine ⟨[DbUpdate.sseBrandUpdate st1.currentOperation (currentCost st1.totalApiCalls)]
            ++ updr, ?_, ?_⟩
        · rw [hupdr]
          simp only [hupdg]
          simp [List.append_assoc]
        · intro u hu
          simp only [List.mem_append, List.mem_singleton] at hu
          rcases hu with hu | hu
          · subst hu
            refine ⟨rfl, rfl, fun c hc => ?_⟩
            simp only [updCompletedOps, Option.some.injEq] at hc
            subst hc
            rw [hcurg]
            omega
          · obtain ⟨hc1, hc2, hb⟩ := hboundr u hu
            refine ⟨hc1, hc2, fun c hc => ?_⟩
            have hthis := hb c hc
            simp at hthis
            rw [hcurg] at hthis
            omega
      · rw [if_neg hemp]
        obtain ⟨habr, hcurr, hfetchr, updr, hupdr, hboundr⟩ := ih (bIdx + 1)
          { { { st1 with insertedRows := st1.insertedRows + acc1.length } with
                updates := { st1 with insertedRows := st1.insertedRows + acc1.length }.updates ++
                  [DbUpdate.insertResults acc1] } with
              updates := { { st1 with insertedRows := st1.insertedRows + acc1.length } with
                  updates := { st1 with insertedRows := st1.insertedRows + acc1.length }.updates ++
                    [DbUpdate.insertResults acc1] }.updates ++
                [DbUpdate.sseBrandUpdate
                  { { st1 with insertedRows := st1.insertedRows + acc1.length } with
                      updates := { st1 with
                          insertedRows := st1.insertedRows + acc1.length }.updates ++
                        [DbUpdate.insertResults acc1] }.currentOperation
                  (currentCost
                    { { st1 with insertedRows := st1.insertedRows + acc1.length } with
                        updates := { st1 with
                            insertedRows := st1.insertedRows + acc1.length }.updates ++
                          [DbUpdate.insertResults acc1] }.totalApiCalls)] }
          (K - grid.length) hK1' hKlen' (hbrR _ (by simp only; exact htotg))
          (hokR _ (by simp only; exact htotg))
        refine ⟨habr, by rw [hcurr]; simp [hcurg]; omega,
          by rw [hfetchr]; simp [hfetchg]; omega, ?_⟩
        refine ⟨[DbUpdate.insertResults acc1] ++
            [DbUpdate.sseBrandUpdate st1.currentOperation (currentCost st1.totalApiCalls)]
            ++ updr, ?_, ?_⟩
        · rw [hupdr]
          simp only [hupdg]
          simp [List.append_assoc]
        · intro u hu
          simp only [List.append_assoc, List.mem_append, List.mem_singleton] at hu
          rcases hu with hu | hu | hu
          · subst hu
            exact ⟨rfl, rfl, fun c hc => by simp [updCompletedOps] at hc⟩
          · subst hu
            refine ⟨rfl, rfl, fun c hc => ?_⟩
            simp only [updCompletedOps, Option.some.injEq] at hc
            subst hc
            rw [hcurg]
            omega
          · obtain ⟨hc1, hc2, hb⟩ := hboundr u hu
            refine ⟨hc1, hc2, fun c hc => ?_⟩
            have hthis := hb c hc
            simp at hthis
            rw [hcurg] at hthis
            omega

/-- **C3 (amended).** When the accumulated cost first exceeds the 20000
ceiling at the `K`-th operation, both orchestrators abort after exactly `K`
fetch calls and every persisted `completed_operations` stays strictly below
`K` — but the two variants diverge on the session status.  The
background-processing orchestrator's final session write is
`status: 'failed'` with the cost-limit reason and no `complete` write
happens.  The SSE orchestrator instead ends the stream with the cost-limit
`error` message and issues **no** session write at all on this path: its
only status-bearing write remains the initial insert that created the row
as `in_progress`, so the session is never marked failed. -/
theorem costLimit_fatal_per_variant (sid : String) (brands : List Brand) (grid : List GridPoint)
    (oracle : Nat → Nat → FetchOut) (K : Nat)
    (hK : K ≤ brands.length * grid.length)
    (hbr : exceedsCostLimit (currentCost (takeSum (jobCalls oracle grid brands 0) K)) = true)
    (hok : ∀ j < K, exceedsCostLimit (currentCost
      (takeSum (jobCalls oracle grid brands 0) j)) = false) :
    ((runScrapingInBackground sid brands grid oracle).fetchCalls = K ∧
     (runScrapingInBackground sid brands grid oracle).updates.getLast? =
       some DbUpdate.failedCostLimit ∧
     (∀ u ∈ (runScrapingInBackground sid brands grid oracle).updates,
       ∀ c, updCompletedOps u = some c → c < K) ∧
     (∀ u ∈ (runScrapingInBackground sid brands grid oracle).updates,
       isCompleteU u = false)) ∧
    ((scrapeRun sid brands grid oracle true).fetchCalls = K ∧
     (scrapeRun sid brands grid oracle true).msgs.getLast? =
       some (Msg.error "Cost limit of ₹20,000 exceeded") ∧
     (scrapeRun sid brands grid oracle true).updates.head? =
       some (DbUpdate.sseSessionCreated (brands.length * grid.length)) ∧
     ∀ u ∈ (scrapeRun sid brands grid oracle true).updates,
       isFailedU u = false ∧ isCompleteU u = false ∧
       ∀ c, updCompletedOps u = some c → c < K) := by
  have h1 : 1 ≤ K := by
    rcases Nat.eq_zero_or_pos K with rfl | h
    · rw [takeSum_zero] at hbr
      norm_num [currentCost, exceedsCostLimit] at hbr
    · exact h
  refine ⟨costLimit_aborts_job sid brands grid oracle K hK hbr hok, ?_⟩
  obtain ⟨habS, hcurS, hfetchS, updS, hupdS, hboundS⟩ :=
    sseBrandLoop_breach oracle sid grid brands.length (brands.length * grid.length) brands 0
      { currentOperation := 0, totalApiCalls := 0, seen := [], insertedRows := 0,
        msgs := [Msg.start (brands.length * grid.length)], fetchCalls := 0,
        updates := [DbUpdate.sseSessionCreated (brands.length * grid.length)] }
      K h1 (by rw [jobCalls_length]; exact hK) (by simpa using hbr)
      (by intro j hj; simpa using hok j hj)
  obtain ⟨midS, hmsgsS, hcaseS⟩ :=
    sseBrandLoop_msgs oracle sid grid brands.length (brands.length * grid.length) brands 0
      { currentOperation := 0, totalApiCalls := 0, seen := [], insertedRows := 0,
        msgs := [Msg.start (brands.length * grid.length)], fetchCalls := 0,
        updates := [DbUpdate.sseSessionCreated (brands.length * grid.length)] }
  have hrun : scrapeRun sid brands grid oracle true =
      (sseBrandLoop oracle sid grid brands.length (brands.length * grid.length) brands 0
        { currentOperation := 0, totalApiCalls := 0, seen := [], insertedRows := 0,
          msgs := [Msg.start (brands.length * grid.length)], fetchCalls := 0,
          updates := [DbUpdate.sseSessionCreated (brands.length * grid.length)] }).1 := by
    unfold scrapeRun
    rw [if_pos rfl, if_pos habS]
  rw [hrun]
  refine ⟨by rw [hfetchS]; simp, ?_, ?_, ?_⟩
  · rcases hcaseS with ⟨_, mid0, hmid0, _⟩ | ⟨habF, _⟩
    · rw [hmsgsS, hmid0, ← List.append_assoc]
      exact List.getLast?_concat _
    · rw [habF] at habS
      exact absurd habS Bool.false_ne_true
  · rw [hupdS]
    simp
  · intro u hu
    rw [hupdS] at hu
    rcases List.mem_append.mp hu with hu | hu
    · have hue : u = DbUpdate.sseSessionCreated (brands.length * grid.length) := by
        simpa using hu
      subst hue
      refine ⟨rfl, rfl, fun c hc => ?_⟩
      simp only [updCompletedOps, Option.some.injEq] at hc
      omega
    · obtain ⟨hc1, hc2, hb⟩ := hboundS u hu
      refine ⟨hc1, hc2, fun c hc => ?_⟩
      have hthis := hb c hc
      simpa using hthis

/-- Counterexample to the claim's "marks the job's session status failed":
one brand, one grid point, a provider answer of 2,000,000 API calls (cost
34000 > 20000).  On the very same input the background orchestrator's last
session write is the failed/cost-limit update, while the SSE orchestrator's
complete list of session writes is just the initial `in_progress` insert —
the terminal cost-limit `error` goes to the stream only, and no update ever
marks the session failed. -/
theorem costLimit_sse_session_not_failed_cex :
    (scrapeRun "s" [{ brand := "b", sku := "k", category := "c" }] [{ lat := 0, lng := 0 }]
        (fun _ _ => { places := [], apiCalls := 2000000 }) true).updates =
      [DbUpdate.sseSessionCreated 1] ∧
    (scrapeRun "s" [{ brand := "b", sku := "k", category := "c" }] [{ lat := 0, lng := 0 }]
        (fun _ _ => { places := [], apiCalls := 2000000 }) true).msgs.getLast? =
      some (Msg.error "Cost limit of ₹20,000 exceeded") ∧
    (∀ u ∈ (scrapeRun "s" [{ brand := "b", sku := "k", category := "c" }]
        [{ lat := 0, lng := 0 }]
        (fun _ _ => { places := [], apiCalls := 2000000 }) true).updates,
      isFailedU u = false) ∧
    (runScrapingInBackground "s" [{ brand := "b", sku := "k", category := "c" }]
        [{ lat := 0, lng := 0 }]
        (fun _ _ => { places := [], apiCalls := 2000000 })).updates.getLast? =
      some DbUpdate.failedCostLimit := by
  refine ⟨?_, ?_, ?_, ?_⟩
  · norm_num [scrapeRun, sseBrandLoop, sseGridLoop, collectPlaces, currentCost,
      exceedsCostLimit]
  · norm_num [scrapeRun, sseBrandLoop, sseGridLoop, collectPlaces, currentCost,
      exceedsCostLimit]
  · intro u hu
    norm_num [scrapeRun, sseBrandLoop, sseGridLoop, collectPlaces, currentCost,
      exceedsCostLimit] at hu
    subst hu
    rfl
  · norm_num [runScrapingInBackground, bgBrandLoop, bgGridLoop, collectPlaces, currentCost,
      exceedsCostLimit, insertedCount]

/-- Witness for `costLimit_fatal_per_variant`: one brand, one grid point and
a provider answer of 2,000,000 API calls — breach at operation 1. -/
theorem costLimit_fatal_per_variant_witness :
    (1 : Nat) ≤ 1 * 1 ∧
    (runScrapingInBackground "s" [{ brand := "b", sku := "k", category := "c" }]
        [{ lat := 0, lng := 0 }] (fun _ _ => { places := [], apiCalls := 2000000 })).fetchCalls
      = 1 ∧
    (scrapeRun "s" [{ brand := "b", sku := "k", category := "c" }] [{ lat := 0, lng := 0 }]
        (fun _ _ => { places := [], apiCalls := 2000000 }) true).fetchCalls = 1 ∧
    (scrapeRun "s" [{ brand := "b", sku := "k", category := "c" }] [{ lat := 0, lng := 0 }]
        (fun _ _ => { places := [], apiCalls := 2000000 }) true).updates.head? =
      some (DbUpdate.sseSessionCreated (1 * 1)) := by
  have h := costLimit_fatal_per_variant "s" [{ brand := "b", sku := "k", category := "c" }]
    [{ lat := 0, lng := 0 }] (fun _ _ => { places := [], apiCalls := 2000000 }) 1
    (by norm_num)
    (by norm_num [jobCalls, gridCalls, takeSum, currentCost, exceedsCostLimit])
    (by
      intro j hj
      have : j = 0 := by omega
      subst this
      norm_num [takeSum_zero, currentCost, exceedsCostLimit])
  exact ⟨by norm_num, h.1.1, h.2.1, h.2.2.2.1⟩

end RetailScraper
